import Mathlib

/-!
# Verification of vFAPS core algorithms

Shallow embedding, over `ℚ` and `ℤ`, of the pure algorithmic kernels of the
vFAPS repository, together with proofs (and refutations) of the spec's claims
about them.

Python floats are modelled as exact rationals, Python ints as `ℤ`, Python
lists as `List`.  Each definition carries a pointer to the source function it
embeds.
-/

/- ============================================================
   src/vr_controller.py — AxisCalibration.map_value
   ============================================================ -/

/-- Python 3's built-in `round` on a real value: round to nearest, ties to
even (banker's rounding).  `round` returns an `int` in Python, so the result
type is `ℤ`. -/
def pyRound (q : ℚ) : ℤ :=
  if q - ⌊q⌋ < 1/2 then ⌊q⌋
  else if 1/2 < q - ⌊q⌋ then ⌊q⌋ + 1
  else if ⌊q⌋ % 2 = 0 then ⌊q⌋ else ⌊q⌋ + 1

/-- Python's `int(...)` applied to a float: truncation toward zero. -/
def pyTrunc (q : ℚ) : ℤ :=
  if q < 0 then -⌊-q⌋ else ⌊q⌋

/-- `AxisCalibration` dataclass, src/vr_controller.py lines 150-157. -/
structure AxisCalibration where
  min_val : ℚ := 0
  max_val : ℚ := 1
  inverted : Bool := false
  deadzone : ℚ := 1/50
  sensitivity : ℚ := 1

/-- `AxisCalibration.map_value`, src/vr_controller.py lines 159-180.
Maps a raw value to 0-100 with sensitivity scaling; `int(round(x))` is
`pyRound` since one-argument `round` already yields an int. -/
def AxisCalibration.map_value (c : AxisCalibration) (raw : ℚ) : ℤ :=
  let range_val := c.max_val - c.min_val
  if range_val = 0 then 50
  else
    let normalized := (raw - c.min_val) / range_val
    let normalized :=
      if c.sensitivity ≠ 1 then (normalized - 1/2) * c.sensitivity + 1/2
      else normalized
    let normalized := max 0 (min 1 normalized)
    let normalized := if c.inverted then 1 - normalized else normalized
    pyRound (normalized * 100)

/-- Rounding to nearest with ties away from zero — the rounding rule the
spec's words describe for `map_value` ("ties round half away from zero").
Kept separate from `pyRound` so the two can be compared. -/
def roundHalfAwayFromZero (q : ℚ) : ℤ :=
  if q < 0 then -⌊-q + 1/2⌋ else ⌊q + 1/2⌋

/-- The `map_value` pipeline exactly as the spec words it, i.e. with the
final rounding done halves-away-from-zero rather than Python's
halves-to-even.  Used only to compare the spec's description with the
code's behaviour. -/
def AxisCalibration.map_value_specRounding (c : AxisCalibration) (raw : ℚ) : ℤ :=
  let range_val := c.max_val - c.min_val
  if range_val = 0 then 50
  else
    let normalized := (raw - c.min_val) / range_val
    let normalized :=
      if c.sensitivity ≠ 1 then (normalized - 1/2) * c.sensitivity + 1/2
      else normalized
    let normalized := max 0 (min 1 normalized)
    let normalized := if c.inverted then 1 - normalized else normalized
    roundHalfAwayFromZero (normalized * 100)

/- Basic facts about `pyRound`. -/

theorem pyRound_floor_cases (q : ℚ) : pyRound q = ⌊q⌋ ∨ pyRound q = ⌊q⌋ + 1 := by
  unfold pyRound
  split_ifs <;> simp

theorem floor_le_pyRound (q : ℚ) : ⌊q⌋ ≤ pyRound q := by
  rcases pyRound_floor_cases q with h | h <;> omega

theorem pyRound_nonneg {q : ℚ} (h : 0 ≤ q) : 0 ≤ pyRound q := by
  have := floor_le_pyRound q
  have h0 : (0 : ℤ) ≤ ⌊q⌋ := Int.floor_nonneg.mpr h
  omega

theorem pyRound_le_int {q : ℚ} {n : ℤ} (h : q ≤ n) : pyRound q ≤ n := by
  have hfl : ⌊q⌋ ≤ n := by
    have := Int.floor_le_floor h
    simpa using this
  rcases eq_or_lt_of_le hfl with heq | hlt
  · -- the floor already equals the bound: the fractional part is ≤ 0,
    -- so the `r < 1/2` branch is taken and `pyRound q = ⌊q⌋ = n`.
    have hr : q - ⌊q⌋ < 1/2 := by
      have hc : (⌊q⌋ : ℚ) = (n : ℚ) := by exact_mod_cast heq
      have hq : q - ⌊q⌋ ≤ 0 := by
        rw [hc]
        linarith
      linarith
    unfold pyRound
    simp only [if_pos hr]
    omega
  · rcases pyRound_floor_cases q with h' | h' <;> omega

theorem pyRound_mono {x y : ℚ} (h : x ≤ y) : pyRound x ≤ pyRound y := by
  have hf : ⌊x⌋ ≤ ⌊y⌋ := Int.floor_le_floor h
  rcases eq_or_lt_of_le hf with heq | hlt
  · -- equal floors: compare fractional parts
    have hr : x - ⌊x⌋ ≤ y - ⌊y⌋ := by
      have : (⌊x⌋ : ℚ) = (⌊y⌋ : ℚ) := by exact_mod_cast heq
      linarith
    unfold pyRound
    split_ifs <;> first | omega | linarith
  · rcases pyRound_floor_cases x with hx | hx <;>
    rcases pyRound_floor_cases y with hy | hy <;> omega

/-- C1 counterexample input: the identity calibration. -/
def c1Cal : AxisCalibration := { min_val := 0, max_val := 1, inverted := false,
                                 deadzone := 1/50, sensitivity := 1 }

/-- **C1, counterexample.**  The claim states that `map_value` rounds with
ties half away from zero, so that a pre-rounding value of 50.5 yields 51.
On the calibration `min_val = 0, max_val = 1, sensitivity = 1` (so
`max_val ≠ min_val`) and raw input `0.505`, the pre-rounding value is
exactly `50.5`, the rule the spec describes yields `51`, but the code's
`round` (Python 3: ties to even) yields `50`. -/
theorem c1_counterexample :
    c1Cal.max_val ≠ c1Cal.min_val ∧
    c1Cal.map_value_specRounding (101/200) = 51 ∧
    c1Cal.map_value (101/200) = 50 ∧ (50 : ℤ) ≠ 51 := by
  refine ⟨by norm_num [c1Cal], ?_, ?_, by decide⟩
  · norm_num [c1Cal, AxisCalibration.map_value_specRounding, roundHalfAwayFromZero]
  · norm_num [c1Cal, AxisCalibration.map_value, pyRound]

/-- **C1 (amended).**  For every calibration with `max_val ≠ min_val` and
every raw input, `map_value` normalizes, applies sensitivity scaling around
0.5, clamps to [0,1], inverts if configured, scales to [0,100] and rounds to
the nearest integer with ties rounding **to even** (Python 3 `round`
semantics; a pre-rounding value of `m + 1/2` yields `m + m % 2`, the even
neighbour — e.g. 50.5 yields 50, not 51). -/
theorem c1_map_value_pipeline (c : AxisCalibration) (raw : ℚ)
    (h : c.max_val - c.min_val ≠ 0) :
    c.map_value raw =
      pyRound ((if c.inverted then
          1 - max 0 (min 1
            (((raw - c.min_val) / (c.max_val - c.min_val) - 1/2) * c.sensitivity + 1/2))
        else
          max 0 (min 1
            (((raw - c.min_val) / (c.max_val - c.min_val) - 1/2) * c.sensitivity + 1/2))) * 100)
      ∧ (∀ m : ℤ, pyRound ((m : ℚ) + 1/2) = m + m % 2) := by
  constructor
  · unfold AxisCalibration.map_value
    rw [if_neg h]
    by_cases hs : c.sensitivity = 1
    · -- sensitivity = 1: the code skips the scaling step, but the scaled
      -- formula `(n - 1/2) * 1 + 1/2` collapses to `n` anyway.
      norm_num [hs]
    · simp only [if_pos hs]
  · intro m
    unfold pyRound
    have hfl : ⌊(m : ℚ) + 1/2⌋ = m := by
      rw [add_comm, Int.floor_add_int]
      norm_num
    rw [hfl]
    have hr : ((m : ℚ) + 1/2) - (m : ℚ) = 1/2 := by ring
    rw [hr]
    norm_num
    split_ifs with h2 <;> omega

/-- **C1 witness** for `c1_map_value_pipeline` at the identity calibration
and raw input 1/4 (pre-rounding value 25). -/
theorem c1_map_value_pipeline_witness :
    c1Cal.max_val - c1Cal.min_val ≠ 0 ∧
    (c1Cal.map_value (1/4) =
      pyRound ((if c1Cal.inverted then
          1 - max 0 (min 1
            ((((1:ℚ)/4 - c1Cal.min_val) / (c1Cal.max_val - c1Cal.min_val) - 1/2) * c1Cal.sensitivity + 1/2))
        else
          max 0 (min 1
            ((((1:ℚ)/4 - c1Cal.min_val) / (c1Cal.max_val - c1Cal.min_val) - 1/2) * c1Cal.sensitivity + 1/2))) * 100)
      ∧ (∀ m : ℤ, pyRound ((m : ℚ) + 1/2) = m + m % 2)) :=
  ⟨by norm_num [c1Cal], c1_map_value_pipeline c1Cal (1/4) (by norm_num [c1Cal])⟩

/-- Helper: the common tail of `map_value` — clamp to [0,1], scale to 100,
round — is monotone. -/
theorem pyRound_clamp_mono {x y : ℚ} (h : x ≤ y) :
    pyRound (max 0 (min 1 x) * 100) ≤ pyRound (max 0 (min 1 y) * 100) := by
  apply pyRound_mono
  have hc : max 0 (min 1 x) ≤ max 0 (min 1 y) :=
    max_le_max le_rfl (min_le_min le_rfl h)
  nlinarith

/-- Helper: the `map_value` result after clamping lies in [0,100], with or
without inversion. -/
theorem pyRound_clamp_bounds (v : ℚ) (inv : Bool) :
    0 ≤ pyRound ((if inv then 1 - max 0 (min 1 v) else max 0 (min 1 v)) * 100) ∧
    pyRound ((if inv then 1 - max 0 (min 1 v) else max 0 (min 1 v)) * 100) ≤ 100 := by
  have h0 : (0:ℚ) ≤ max 0 (min 1 v) := le_max_left _ _
  have h1 : max 0 (min 1 v) ≤ 1 := max_le (by norm_num) (min_le_left _ _)
  constructor
  · apply pyRound_nonneg
    cases inv <;> simp only [if_true, if_false, Bool.false_eq_true] <;> simp
  · apply pyRound_le_int
    push_cast
    cases inv <;> simp only [if_true, if_false, Bool.false_eq_true] <;> simp

/-- C6 counterexample input: non-degenerate, non-inverted calibration with
negative sensitivity. -/
def c6Cal : AxisCalibration := { min_val := 0, max_val := 1, inverted := false,
                                 deadzone := 1/50, sensitivity := -1 }

/-- **C6, counterexample.**  The claim asserts `map_value` is monotonic for
*every* calibration with `max_val > min_val` and `inverted = false`.  With
`sensitivity = -1` the sensitivity-scaling step reverses orientation:
`map_value 0 = 100 > 0 = map_value 1` although `0 ≤ 1`. -/
theorem c6_counterexample :
    c6Cal.min_val < c6Cal.max_val ∧ c6Cal.inverted = false ∧ ((0:ℚ) ≤ 1) ∧
    c6Cal.map_value 0 = 100 ∧ c6Cal.map_value 1 = 0 ∧
    ¬(c6Cal.map_value 0 ≤ c6Cal.map_value 1) := by
  refine ⟨by norm_num [c6Cal], by decide, by norm_num, ?_, ?_, ?_⟩ <;>
    norm_num [c6Cal, AxisCalibration.map_value, pyRound]

/-- **C6 (amended).**  For every calibration with `max_val > min_val`,
`inverted = false` **and `sensitivity ≥ 0`**, `map_value` is monotonic
(non-decreasing) in the raw input; for every calibration and input the
result lies in [0,100]; and whenever `max_val = min_val` the result is
exactly 50 (total function — no division by zero). -/
theorem c6_map_value_monotone_range (c : AxisCalibration) (raw raw' : ℚ)
    (hrange : c.min_val < c.max_val) (hinv : c.inverted = false)
    (hsens : 0 ≤ c.sensitivity) (hle : raw ≤ raw') :
    c.map_value raw ≤ c.map_value raw' ∧
    (∀ (d : AxisCalibration) (x : ℚ),
        (0 ≤ d.map_value x ∧ d.map_value x ≤ 100) ∧
        (d.max_val = d.min_val → d.map_value x = 50)) := by
  constructor
  · unfold AxisCalibration.map_value
    have hr0 : c.max_val - c.min_val ≠ 0 := by
      intro hz; rw [sub_eq_zero] at hz; linarith
    have hrpos : (0:ℚ) < c.max_val - c.min_val := by linarith
    rw [if_neg hr0, if_neg hr0]
    simp only [hinv, Bool.false_eq_true, if_false]
    have hnorm : (raw - c.min_val) / (c.max_val - c.min_val) ≤
        (raw' - c.min_val) / (c.max_val - c.min_val) :=
      (div_le_div_iff_of_pos_right hrpos).mpr (by linarith)
    by_cases hs : c.sensitivity ≠ 1
    · simp only [if_pos hs]
      apply pyRound_clamp_mono
      nlinarith
    · simp only [if_neg hs]
      exact pyRound_clamp_mono hnorm
  · intro d x
    unfold AxisCalibration.map_value
    by_cases hd : d.max_val - d.min_val = 0
    · rw [if_pos hd]
      refine ⟨⟨by norm_num, by norm_num⟩, fun _ => rfl⟩
    · rw [if_neg hd]
      refine ⟨pyRound_clamp_bounds _ d.inverted, fun hdeq => ?_⟩
      exact absurd (by rw [hdeq, sub_self]) hd

/-- **C6 witness** for `c6_map_value_monotone_range` at the identity
calibration on raw inputs 0 ≤ 1. -/
theorem c6_map_value_monotone_range_witness :
    c1Cal.min_val < c1Cal.max_val ∧ c1Cal.inverted = false ∧
    (0:ℚ) ≤ c1Cal.sensitivity ∧ ((0:ℚ) ≤ 1) ∧
    (c1Cal.map_value 0 ≤ c1Cal.map_value 1 ∧
     (∀ (d : AxisCalibration) (x : ℚ),
        (0 ≤ d.map_value x ∧ d.map_value x ≤ 100) ∧
        (d.max_val = d.min_val → d.map_value x = 50))) :=
  ⟨by norm_num [c1Cal], by decide, by norm_num [c1Cal], by norm_num,
   c6_map_value_monotone_range c1Cal 0 1 (by norm_num [c1Cal]) (by decide)
     (by norm_num [c1Cal]) (by norm_num)⟩

/- ============================================================
   src/stabilization.py — StabilizationConfig, AxisStabilizer,
   OneEuroFilter, HysteresisFilter
   ============================================================ -/

/-- `StabilizationConfig` dataclass, src/stabilization.py lines 352-379. -/
structure StabilizationConfig where
  spike_rejection_enabled : Bool := true
  spike_threshold : ℚ := 1/2
  one_euro_enabled : Bool := true
  one_euro_min_cutoff : ℚ := 3/2
  one_euro_beta : ℚ := 7/1000
  slew_rate_enabled : Bool := true
  slew_max_rate : ℚ := 5
  jerk_limiter_enabled : Bool := false
  jerk_max_jerk : ℚ := 20
  deadzone_enabled : Bool := true
  deadzone_threshold : ℚ := 1
  hysteresis_enabled : Bool := true
  hysteresis_band : ℚ := 3/2

/-- `ROTATION_AXES`, src/stabilization.py line 440. -/
def rotationAxes : List String := ["pitch", "yaw", "roll"]

/-- `_adjust_config_for_axis`, src/stabilization.py lines 442-454.
Returns a copy of `config` with thresholds scaled for rotation axes; the
`copy.copy` + field assignment of the source is the functional record
update here (the caller's record is a value and cannot be mutated). -/
def adjustConfigForAxis (config : StabilizationConfig) (axis_name : String) :
    StabilizationConfig :=
  if axis_name ∉ rotationAxes then config
  else
    { config with
      spike_threshold := config.spike_threshold * 60
      slew_max_rate := config.slew_max_rate * 60
      jerk_max_jerk := config.jerk_max_jerk * 60 }

/-- The configuration-holding part of `AxisStabilizer`,
src/stabilization.py lines 457-495 (the six filter instances hold copies of
these fields and are not needed for the configuration claims). -/
structure AxisStabilizer where
  axis_name : String
  _config : StabilizationConfig
  _effective_config : StabilizationConfig

/-- `AxisStabilizer.set_config`, src/stabilization.py lines 491-495. -/
def AxisStabilizer.set_config (st : AxisStabilizer) (config : StabilizationConfig) :
    AxisStabilizer :=
  { st with
    _config := config
    _effective_config := adjustConfigForAxis config st.axis_name }

/-- **C5.**  For every config, `set_config` on a rotation-axis stabilizer
derives an effective config whose `spike_threshold`, `slew_max_rate` and
`jerk_max_jerk` are exactly 60× the supplied config's values, leaves
`deadzone_threshold` and `hysteresis_band` unscaled, keeps the caller's
config value untouched as `_config` (no mutation), and is idempotent —
calling `set_config` again with the same config yields the same stabilizer,
so the ×60 scaling never compounds.  On position axes (x, y, z) no field is
scaled. -/
theorem c5_set_config_scaling (st stp : AxisStabilizer) (cfg : StabilizationConfig)
    (hrot : st.axis_name ∈ rotationAxes)
    (hpos : stp.axis_name = "x" ∨ stp.axis_name = "y" ∨ stp.axis_name = "z") :
    ((st.set_config cfg)._effective_config.spike_threshold = cfg.spike_threshold * 60 ∧
     (st.set_config cfg)._effective_config.slew_max_rate = cfg.slew_max_rate * 60 ∧
     (st.set_config cfg)._effective_config.jerk_max_jerk = cfg.jerk_max_jerk * 60 ∧
     (st.set_config cfg)._effective_config.deadzone_threshold = cfg.deadzone_threshold ∧
     (st.set_config cfg)._effective_config.hysteresis_band = cfg.hysteresis_band) ∧
    (st.set_config cfg)._config = cfg ∧
    (st.set_config cfg).set_config cfg = st.set_config cfg ∧
    (stp.set_config cfg)._effective_config = cfg := by
  have hadj : adjustConfigForAxis cfg st.axis_name =
      { cfg with
        spike_threshold := cfg.spike_threshold * 60
        slew_max_rate := cfg.slew_max_rate * 60
        jerk_max_jerk := cfg.jerk_max_jerk * 60 } := by
    unfold adjustConfigForAxis
    rw [if_neg (by simpa using hrot)]
  have hadjp : adjustConfigForAxis cfg stp.axis_name = cfg := by
    unfold adjustConfigForAxis
    rcases hpos with h | h | h <;> rw [h] <;> simp [rotationAxes]
  refine ⟨?_, rfl, ?_, ?_⟩
  · simp [AxisStabilizer.set_config, hadj]
  · simp only [AxisStabilizer.set_config]
  · simp only [AxisStabilizer.set_config, hadjp]

/-- **C5 witness** for `c5_set_config_scaling`: a pitch-axis and an x-axis
stabilizer, default config. -/
theorem c5_set_config_scaling_witness :
    (⟨"pitch", {}, {}⟩ : AxisStabilizer).axis_name ∈ rotationAxes ∧
    (((AxisStabilizer.set_config ⟨"pitch", {}, {}⟩ {})._effective_config.spike_threshold =
        StabilizationConfig.spike_threshold {} * 60 ∧
      (AxisStabilizer.set_config ⟨"pitch", {}, {}⟩ {})._effective_config.slew_max_rate =
        StabilizationConfig.slew_max_rate {} * 60 ∧
      (AxisStabilizer.set_config ⟨"pitch", {}, {}⟩ {})._effective_config.jerk_max_jerk =
        StabilizationConfig.jerk_max_jerk {} * 60 ∧
      (AxisStabilizer.set_config ⟨"pitch", {}, {}⟩ {})._effective_config.deadzone_threshold =
        StabilizationConfig.deadzone_threshold {} ∧
      (AxisStabilizer.set_config ⟨"pitch", {}, {}⟩ {})._effective_config.hysteresis_band =
        StabilizationConfig.hysteresis_band {}) ∧
     (AxisStabilizer.set_config ⟨"pitch", {}, {}⟩ {})._config = {} ∧
     (AxisStabilizer.set_config ⟨"pitch", {}, {}⟩ {}).set_config {} =
        AxisStabilizer.set_config ⟨"pitch", {}, {}⟩ {} ∧
     (AxisStabilizer.set_config ⟨"x", {}, {}⟩ {})._effective_config = {}) :=
  ⟨by simp [rotationAxes],
   c5_set_config_scaling ⟨"pitch", {}, {}⟩ ⟨"x", {}, {}⟩ {}
     (by simp [rotationAxes]) (Or.inl rfl)⟩

/-- The exact rational value of the double-precision float `math.pi`. -/
def mathPi : ℚ := 884279719003555 / 281474976710656

/-- `OneEuroFilter`, src/stabilization.py lines 38-103: parameters and
mutable state. -/
structure OneEuroFilter where
  min_cutoff : ℚ := 1
  beta : ℚ := 7/1000
  d_cutoff : ℚ := 1
  x_prev : Option ℚ := none
  dx_prev : ℚ := 0
  t_prev : Option ℚ := none

/-- `OneEuroFilter._smoothing_factor`, src/stabilization.py lines 66-68. -/
def smoothingFactor (te cutoff : ℚ) : ℚ :=
  let r := 2 * mathPi * cutoff * te
  r / (r + 1)

/-- `OneEuroFilter.filter`, src/stabilization.py lines 70-98, with the
caller passing an explicit timestamp `t`.  `t_prev` is always set together
with `x_prev` in the source, so the `getD 0` default in the `some` branch is
unreachable. -/
def OneEuroFilter.filter (f : OneEuroFilter) (x t : ℚ) : ℚ × OneEuroFilter :=
  match f.x_prev with
  | none => (x, { f with x_prev := some x, dx_prev := 0, t_prev := some t })
  | some xp =>
    let tp := f.t_prev.getD 0
    let te := t - tp
    let te := if te ≤ 0 then 1/1000000 else te
    let a_d := smoothingFactor te f.d_cutoff
    let dx := (x - xp) / te
    let dx_hat := a_d * dx + (1 - a_d) * f.dx_prev
    let cutoff := f.min_cutoff + f.beta * |dx_hat|
    let a := smoothingFactor te cutoff
    let x_hat := a * x + (1 - a) * xp
    (x_hat, { f with x_prev := some x_hat, dx_prev := dx_hat, t_prev := some t })

/-- The smoothing factor `r/(r+1)` lies in [0,1) for nonnegative `r`. -/
theorem smoothingFactor_mem {te cutoff : ℚ} (hte : 0 < te) (hc : 0 ≤ cutoff) :
    0 ≤ smoothingFactor te cutoff ∧ smoothingFactor te cutoff ≤ 1 := by
  unfold smoothingFactor
  have hpi : (0:ℚ) < mathPi := by norm_num [mathPi]
  have hr : 0 ≤ 2 * mathPi * cutoff * te := by positivity
  constructor
  · positivity
  · rw [div_le_one (by linarith)]
    linarith

/-- A convex combination `a*x + (1-a)*xp` with `a ∈ [0,1]` lies between
`xp` and `x`. -/
theorem convex_combination_between {a x xp : ℚ} (h0 : 0 ≤ a) (h1 : a ≤ 1) :
    min xp x ≤ a * x + (1 - a) * xp ∧ a * x + (1 - a) * xp ≤ max xp x := by
  rcases le_total xp x with h | h
  · rw [min_eq_left h, max_eq_right h]
    constructor <;> nlinarith
  · rw [min_eq_right h, max_eq_left h]
    constructor <;> nlinarith

/-- **C8.**  `OneEuroFilter.filter` returns its first input unchanged
exactly; and on every subsequent sample (so in particular along any
constant-sign monotonic input sequence), when `min_cutoff`, `beta`,
`d_cutoff ≥ 0` and timestamps strictly increase, the output lies between
the previous output (`x_prev`) and the new input — no overshoot. -/
theorem c8_one_euro_filter (f : OneEuroFilter) (x t xp tp : ℚ)
    (hmc : 0 ≤ f.min_cutoff) (hb : 0 ≤ f.beta) (_hd0 : 0 ≤ f.d_cutoff) :
    (f.x_prev = none → (f.filter x t).1 = x) ∧
    (f.x_prev = some xp → f.t_prev = some tp → tp < t →
      min xp x ≤ (f.filter x t).1 ∧ (f.filter x t).1 ≤ max xp x) := by
  constructor
  · intro hnone
    simp only [OneEuroFilter.filter, hnone]
  · intro hx ht htlt
    simp only [OneEuroFilter.filter, hx, ht, Option.getD_some]
    have hte : (0:ℚ) < t - tp := by linarith
    rw [if_neg (by linarith)]
    have hcut : 0 ≤ f.min_cutoff + f.beta *
        |smoothingFactor (t - tp) f.d_cutoff * ((x - xp) / (t - tp)) +
         (1 - smoothingFactor (t - tp) f.d_cutoff) * f.dx_prev| := by
      have := abs_nonneg (smoothingFactor (t - tp) f.d_cutoff * ((x - xp) / (t - tp)) +
        (1 - smoothingFactor (t - tp) f.d_cutoff) * f.dx_prev)
      nlinarith
    have hmem := smoothingFactor_mem hte hcut
    exact convex_combination_between hmem.1 hmem.2

/-- **C8 witness** for `c8_one_euro_filter`: default parameters, previous
sample (0 at time 0), new sample (1 at time 1). -/
theorem c8_one_euro_filter_witness :
    (0:ℚ) ≤ OneEuroFilter.min_cutoff
      { x_prev := some 0, t_prev := some 0 } ∧
    ((0:ℚ) < (1:ℚ)) ∧
    (({ x_prev := some 0, t_prev := some 0 } : OneEuroFilter).x_prev = none →
      (OneEuroFilter.filter { x_prev := some 0, t_prev := some 0 } 1 1).1 = 1) ∧
    (({ x_prev := some 0, t_prev := some 0 } : OneEuroFilter).x_prev = some 0 →
      ({ x_prev := some 0, t_prev := some 0 } : OneEuroFilter).t_prev = some 0 →
      (0:ℚ) < 1 →
      min (0:ℚ) 1 ≤ (OneEuroFilter.filter { x_prev := some 0, t_prev := some 0 } 1 1).1 ∧
      (OneEuroFilter.filter { x_prev := some 0, t_prev := some 0 } 1 1).1 ≤ max (0:ℚ) 1) := by
  refine ⟨by norm_num, by norm_num, ?_, ?_⟩
  · exact (c8_one_euro_filter { x_prev := some 0, t_prev := some 0 } 1 1 0 0
      (by norm_num) (by norm_num) (by norm_num)).1
  · exact (c8_one_euro_filter { x_prev := some 0, t_prev := some 0 } 1 1 0 0
      (by norm_num) (by norm_num) (by norm_num)).2

/-- `HysteresisFilter`, src/stabilization.py lines 298-345: band parameter
and mutable state (`_last_emitted`, `_direction`; +1 rising, -1 falling,
0 unknown). -/
structure HysteresisFilter where
  band : ℚ := 3/2
  last_emitted : Option ℤ := none
  direction : ℤ := 0

/-- `HysteresisFilter.filter`, src/stabilization.py lines 315-341. -/
def HysteresisFilter.filter (f : HysteresisFilter) (value : ℤ) : ℤ × HysteresisFilter :=
  match f.last_emitted with
  | none => (value, { f with last_emitted := some value })
  | some last =>
    let delta := value - last
    if f.direction = 0 then
      if f.band ≤ |(delta : ℚ)| then
        (value, { f with direction := if 0 < delta then 1 else -1,
                         last_emitted := some value })
      else (last, f)
    else if (0 < f.direction ∧ 0 < delta) ∨ (f.direction < 0 ∧ delta < 0) then
      (value, { f with last_emitted := some value })
    else if f.band * 2 ≤ |(delta : ℚ)| then
      (value, { f with direction := if 0 < delta then 1 else -1,
                       last_emitted := some value })
    else (last, f)

/-- **C9.**  For a `HysteresisFilter` with an emitted value on record:
with no direction established, an input within `band` of the last emitted
value leaves output and state unchanged; with a direction established, an
input continuing strictly in that direction is always emitted; and on any
input whose delta is smaller than `2*band` the direction never reverses —
in particular a reversal attempt (a delta against the established
direction) smaller than `2*band` just repeats the last emitted value. -/
theorem c9_hysteresis_filter (f : HysteresisFilter) (value last : ℤ)
    (hlast : f.last_emitted = some last) :
    (f.direction = 0 → |((value - last : ℤ) : ℚ)| < f.band →
      (f.filter value).1 = last ∧ (f.filter value).2 = f) ∧
    (f.direction ≠ 0 →
      (((0 < f.direction ∧ 0 < value - last) ∨ (f.direction < 0 ∧ value - last < 0)) →
        (f.filter value).1 = value) ∧
      (|((value - last : ℤ) : ℚ)| < f.band * 2 →
        (f.filter value).2.direction = f.direction ∧
        (¬((0 < f.direction ∧ 0 < value - last) ∨ (f.direction < 0 ∧ value - last < 0)) →
          (f.filter value).1 = last ∧ (f.filter value).2 = f))) := by
  refine ⟨fun hdir hband => ?_, fun hdir => ⟨fun hsame => ?_, fun hband => ?_⟩⟩
  · simp only [HysteresisFilter.filter, hlast]
    rw [if_pos hdir, if_neg (not_le.mpr hband)]
    exact ⟨rfl, rfl⟩
  · simp only [HysteresisFilter.filter, hlast]
    rw [if_neg hdir, if_pos hsame]
  · simp only [HysteresisFilter.filter, hlast]
    rw [if_neg hdir]
    by_cases hsame : (0 < f.direction ∧ 0 < value - last) ∨
        (f.direction < 0 ∧ value - last < 0)
    · rw [if_pos hsame]
      exact ⟨rfl, fun hns => absurd hsame hns⟩
    · rw [if_neg hsame, if_neg (not_le.mpr hband)]
      exact ⟨rfl, fun _ => ⟨rfl, rfl⟩⟩

/-- C9 witness state: default band 1.5, last emitted 10, no direction. -/
def c9Filt : HysteresisFilter := { band := 3/2, last_emitted := some 10, direction := 0 }

/-- **C9 witness** for `c9_hysteresis_filter`: input 11 (delta 1 < band). -/
theorem c9_hysteresis_filter_witness :
    c9Filt.last_emitted = some 10 ∧
    ((c9Filt.direction = 0 → |((11 - 10 : ℤ) : ℚ)| < c9Filt.band →
      (c9Filt.filter 11).1 = 10 ∧ (c9Filt.filter 11).2 = c9Filt) ∧
     (c9Filt.direction ≠ 0 →
      (((0 < c9Filt.direction ∧ (0 : ℤ) < 11 - 10) ∨
        (c9Filt.direction < 0 ∧ (11 - 10 : ℤ) < 0)) →
        (c9Filt.filter 11).1 = 11) ∧
      (|((11 - 10 : ℤ) : ℚ)| < c9Filt.band * 2 →
        (c9Filt.filter 11).2.direction = c9Filt.direction ∧
        (¬((0 < c9Filt.direction ∧ (0 : ℤ) < 11 - 10) ∨
           (c9Filt.direction < 0 ∧ (11 - 10 : ℤ) < 0)) →
          (c9Filt.filter 11).1 = 10 ∧ (c9Filt.filter 11).2 = c9Filt)))) :=
  ⟨rfl, c9_hysteresis_filter c9Filt 11 10 rfl⟩

/- ============================================================
   src/recorder.py — Recorder._rdp and Recorder.add_sample
   ============================================================ -/

/-- `Recorder._perpendicular_distance`, src/recorder.py lines 269-290,
embedded as the *square* of the distance: the code computes
`abs(num)/sqrt(denomSq)` (resp. `sqrt(pxy)` in the degenerate branch) and
only ever *compares* distances with each other and with epsilon, and
squaring is strictly monotone on nonnegative values, so comparing squares
is equivalent.  `denom == 0` in the code iff `denomSq = 0` here. -/
def perpendicularDistanceSq (point line_start line_stop : ℤ × ℤ) : ℚ :=
  let t_range : ℤ := max 1 (line_stop.1 - line_start.1)
  let px : ℚ := ((point.1 - line_start.1 : ℤ) : ℚ) / (t_range : ℚ) * 100
  let py : ℚ := (point.2 : ℚ)
  let lx1 : ℚ := 0
  let ly1 : ℚ := (line_start.2 : ℚ)
  let lx2 : ℚ := 100
  let ly2 : ℚ := (line_stop.2 : ℚ)
  let dx := lx2 - lx1
  let dy := ly2 - ly1
  let denomSq := dx * dx + dy * dy
  if denomSq = 0 then (px - lx1) ^ 2 + (py - ly1) ^ 2
  else (dy * px - dx * py + lx2 * ly1 - ly2 * lx1) ^ 2 / denomSq

/-- The `for i in range(1, len(points) - 1)` maximum-distance scan of
`Recorder._rdp`, src/recorder.py lines 251-258, over squared distances:
returns `(max_dist², max_idx)`, keeping the first maximiser exactly as the
strict `dist > max_dist` update does. -/
def rdpScan (points : List (ℤ × ℤ)) : ℚ × ℕ :=
  (List.range (points.length - 2)).foldl
    (fun md i =>
      let dist := perpendicularDistanceSq (points.getD (i + 1) (0, 0))
        (points.headD (0, 0)) (points.getLastD (0, 0))
      if md.1 < dist then (dist, i + 1) else md)
    (0, 0)

/-- When `rdpScan` has updated its index at all, the index is an interior
index: `1 ≤ max_idx ≤ length - 2`. -/
theorem rdpScan_idx_bounds (points : List (ℤ × ℤ)) :
    (rdpScan points).2 = 0 ∨
    (1 ≤ (rdpScan points).2 ∧ (rdpScan points).2 + 2 ≤ points.length) := by
  unfold rdpScan
  have key : ∀ (l : List ℕ) (init : ℚ × ℕ),
      (∀ i ∈ l, i + 1 + 2 ≤ points.length) →
      (init.2 = 0 ∨ (1 ≤ init.2 ∧ init.2 + 2 ≤ points.length)) →
      ((l.foldl (fun md i =>
        let dist := perpendicularDistanceSq (points.getD (i + 1) (0, 0))
          (points.headD (0, 0)) (points.getLastD (0, 0))
        if md.1 < dist then (dist, i + 1) else md) init).2 = 0 ∨
       (1 ≤ (l.foldl (fun md i =>
        let dist := perpendicularDistanceSq (points.getD (i + 1) (0, 0))
          (points.headD (0, 0)) (points.getLastD (0, 0))
        if md.1 < dist then (dist, i + 1) else md) init).2 ∧
        (l.foldl (fun md i =>
        let dist := perpendicularDistanceSq (points.getD (i + 1) (0, 0))
          (points.headD (0, 0)) (points.getLastD (0, 0))
        if md.1 < dist then (dist, i + 1) else md) init).2 + 2 ≤ points.length)) := by
    intro l
    induction l with
    | nil => intro init _ hinit; exact hinit
    | cons a l ih =>
      intro init hl hinit
      rw [List.foldl_cons]
      apply ih
      · intro i hi; exact hl i (List.mem_cons_of_mem a hi)
      · dsimp only
        split_ifs with hd
        · right
          exact ⟨Nat.le_add_left 1 a, hl a (List.mem_cons_self a l)⟩
        · exact hinit
  apply key
  · intro i hi
    have := List.mem_range.mp hi
    omega
  · left; rfl

/-- `Recorder._rdp`, src/recorder.py lines 245-267.  The guard carries, in
addition to the code's `max_dist > epsilon` (expressed on squares; for
`epsilon < 0` it is always true), the bounds `1 ≤ max_idx` and
`max_idx + 2 ≤ length` that make the recursion well founded.  Whenever the
scan updated the index these bounds hold (`rdpScan_idx_bounds`); in the only
case they fail while the code's guard holds (`epsilon < 0` with every
interior distance zero, so `max_idx = 0`), the Python recursion
`self._rdp(points[0:], epsilon)` never terminates, so the code defines no
value to disagree with. -/
def rdp (points : List (ℤ × ℤ)) (epsilon : ℚ) : List (ℤ × ℤ) :=
  if points.length ≤ 2 then points
  else if h : (epsilon < 0 ∨ epsilon ^ 2 < (rdpScan points).1) ∧
      1 ≤ (rdpScan points).2 ∧ (rdpScan points).2 + 2 ≤ points.length then
    (rdp (points.take ((rdpScan points).2 + 1)) epsilon).dropLast ++
      rdp (points.drop (rdpScan points).2) epsilon
  else
    [points.headD (0, 0), points.getLastD (0, 0)]
termination_by points.length
decreasing_by
  · obtain ⟨-, -, h2⟩ := h
    simp only [List.length_take]
    omega
  · obtain ⟨-, h1, h2⟩ := h
    simp only [List.length_drop]
    omega

/-- Dropping the last element preserves the sublist relation. -/
theorem dropLast_sublist_dropLast {α : Type} {l m : List α}
    (h : List.Sublist l m) : List.Sublist l.dropLast m.dropLast := by
  induction h with
  | slnil => simp
  | @cons l m a h ih =>
    cases m with
    | nil =>
      have he := List.sublist_nil.mp h
      subst he
      simp
    | cons b m' =>
      rw [List.dropLast_cons₂]
      exact ih.cons a
  | @cons₂ l m a h ih =>
    cases l with
    | nil => simp
    | cons b l' =>
      cases m with
      | nil => exact absurd (List.sublist_nil.mp h) (by simp)
      | cons c m' =>
        rw [List.dropLast_cons₂, List.dropLast_cons₂]
        exact ih.cons₂ a

theorem head?_take_succ {α : Type} (l : List α) (k : ℕ) :
    (l.take (k + 1)).head? = l.head? := by
  cases l <;> simp

theorem head?_dropLast_of_two_le {α : Type} (l : List α) (h : 2 ≤ l.length) :
    l.dropLast.head? = l.head? := by
  cases l with
  | nil => simp at h
  | cons a t =>
    cases t with
    | nil => simp at h
    | cons b u => rw [List.dropLast_cons₂]; simp

theorem getLast?_drop_of_lt {α : Type} (l : List α) (k : ℕ) (h : k < l.length) :
    (l.drop k).getLast? = l.getLast? := by
  conv_rhs => rw [← List.take_append_drop k l, List.getLast?_append]
  have hne : l.drop k ≠ [] := by
    intro hc
    have := congrArg List.length hc
    simp at this
    omega
  obtain ⟨x, hx⟩ := Option.isSome_iff_exists.mp (List.getLast?_isSome.mpr hne)
  rw [hx]
  rfl

theorem getLastD_cons_mem {α : Type} (u : List α) :
    ∀ b : α, u.getLastD b ∈ b :: u := by
  induction u with
  | nil => intro b; simp
  | cons c u ih =>
    intro b
    simp only [List.getLastD_cons]
    exact List.mem_cons_of_mem b (ih c)

theorem headD_getLastD_sublist {α : Type} [Inhabited α] (l : List α) (d : α)
    (h : 2 ≤ l.length) : List.Sublist [l.headD d, l.getLastD d] l := by
  cases l with
  | nil => simp at h
  | cons a t =>
    cases t with
    | nil => simp at h
    | cons b u =>
      simp only [List.headD_cons, List.getLastD_cons]
      exact List.Sublist.cons₂ a (List.singleton_sublist.mpr (getLastD_cons_mem u b))

theorem rdp_length_le (points : List (ℤ × ℤ)) (epsilon : ℚ) :
    (rdp points epsilon).length ≤ points.length := by
  induction points, epsilon using rdp.induct with
  | case1 points eps h =>
    rw [rdp, if_pos h]
  | case2 points eps h hg ih1 ih2 =>
    rw [rdp, if_neg h, dif_pos hg]
    rw [List.length_append, List.length_dropLast]
    simp only [List.length_take, List.length_drop] at ih1 ih2
    obtain ⟨-, h1, h2⟩ := hg
    omega
  | case3 points eps h hg =>
    rw [rdp, if_neg h, dif_neg hg]
    simp only [List.length_cons, List.length_nil]
    omega

theorem min_two_le_rdp_length (points : List (ℤ × ℤ)) (epsilon : ℚ)
    (h2 : 2 ≤ points.length) : 2 ≤ (rdp points epsilon).length := by
  induction points, epsilon using rdp.induct with
  | case1 points eps h =>
    rw [rdp, if_pos h]; exact h2
  | case2 points eps h hg ih1 ih2 =>
    rw [rdp, if_neg h, dif_pos hg]
    rw [List.length_append]
    obtain ⟨-, h1, hb⟩ := hg
    have := ih2 (by simp only [List.length_drop]; omega)
    omega
  | case3 points eps h hg =>
    rw [rdp, if_neg h, dif_neg hg]
    simp

theorem rdp_head? (points : List (ℤ × ℤ)) (epsilon : ℚ) :
    (rdp points epsilon).head? = points.head? := by
  induction points, epsilon using rdp.induct with
  | case1 points eps h =>
    rw [rdp, if_pos h]
  | case2 points eps h hg ih1 ih2 =>
    rw [rdp, if_neg h, dif_pos hg]
    rw [List.head?_append]
    obtain ⟨-, h1, hb⟩ := hg
    have h2 : 2 ≤ (rdp (List.take ((rdpScan points).2 + 1) points) eps).length := by
      apply min_two_le_rdp_length
      simp only [List.length_take]
      omega
    rw [head?_dropLast_of_two_le _ h2, ih1, head?_take_succ]
    cases points with
    | nil => simp at h
    | cons a t => simp
  | case3 points eps h hg =>
    rw [rdp, if_neg h, dif_neg hg]
    cases points with
    | nil => simp at h
    | cons a t => simp

theorem rdp_getLast? (points : List (ℤ × ℤ)) (epsilon : ℚ) :
    (rdp points epsilon).getLast? = points.getLast? := by
  induction points, epsilon using rdp.induct with
  | case1 points eps h =>
    rw [rdp, if_pos h]
  | case2 points eps h hg ih1 ih2 =>
    rw [rdp, if_neg h, dif_pos hg]
    rw [List.getLast?_append]
    obtain ⟨-, h1, hb⟩ := hg
    rw [ih2, getLast?_drop_of_lt _ _ (by omega)]
    have hne : points ≠ [] := by
      intro hc; rw [hc] at h; simp at h
    obtain ⟨x, hx⟩ := Option.isSome_iff_exists.mp (List.getLast?_isSome.mpr hne)
    rw [hx]
    rfl
  | case3 points eps h hg =>
    rw [rdp, if_neg h, dif_neg hg]
    cases points with
    | nil => simp at h
    | cons a t =>
      simp only [List.getLast?_cons_cons, List.getLast?_singleton]
      rw [List.getLastD_eq_getLast?]
      obtain ⟨x, hx⟩ := Option.isSome_iff_exists.mp
        (List.getLast?_isSome.mpr (List.cons_ne_nil a t))
      rw [hx]
      rfl

theorem rdp_sublist (points : List (ℤ × ℤ)) (epsilon : ℚ) :
    List.Sublist (rdp points epsilon) points := by
  induction points, epsilon using rdp.induct with
  | case1 points eps h =>
    rw [rdp, if_pos h]
  | case2 points eps h hg ih1 ih2 =>
    rw [rdp, if_neg h, dif_pos hg]
    obtain ⟨-, h1, hb⟩ := hg
    have he : (List.take ((rdpScan points).2 + 1) points).dropLast =
        List.take ((rdpScan points).2) points := by
      rw [List.dropLast_eq_take, List.take_take]
      congr 1
      simp only [List.length_take]
      omega
    have hdl := dropLast_sublist_dropLast ih1
    rw [he] at hdl
    have := List.Sublist.append hdl ih2
    rwa [List.take_append_drop] at this
  | case3 points eps h hg =>
    rw [rdp, if_neg h, dif_neg hg]
    exact headD_getLastD_sublist points (0, 0) (by omega)

/-- **C7.**  For every input point sequence and every `epsilon ≥ 0`, the
Ramer-Douglas-Peucker reduction `_rdp` returns a subsequence of the input,
preserves the first and the last point exactly, never increases the point
count, and returns any sequence of at most 2 points unchanged.  (All four
properties hold for every `epsilon`; the hypothesis mirrors the claim.) -/
theorem c7_rdp_reduction (points : List (ℤ × ℤ)) (epsilon : ℚ)
    (_heps : 0 ≤ epsilon) :
    List.Sublist (rdp points epsilon) points ∧
    (rdp points epsilon).head? = points.head? ∧
    (rdp points epsilon).getLast? = points.getLast? ∧
    (rdp points epsilon).length ≤ points.length ∧
    (points.length ≤ 2 → rdp points epsilon = points) :=
  ⟨rdp_sublist points epsilon, rdp_head? points epsilon,
   rdp_getLast? points epsilon, rdp_length_le points epsilon,
   fun h => by rw [rdp, if_pos h]⟩

/-- **C7 witness** for `c7_rdp_reduction` on a concrete 4-point sequence
with `epsilon = 3/2`. -/
theorem c7_rdp_reduction_witness :
    (0:ℚ) ≤ 3/2 ∧
    (List.Sublist (rdp [(0, 0), (10, 50), (20, 0), (30, 100)] (3/2))
        [(0, 0), (10, 50), (20, 0), (30, 100)] ∧
     (rdp [(0, 0), (10, 50), (20, 0), (30, 100)] (3/2)).head? =
        ([(0, 0), (10, 50), (20, 0), (30, 100)] : List (ℤ × ℤ)).head? ∧
     (rdp [(0, 0), (10, 50), (20, 0), (30, 100)] (3/2)).getLast? =
        ([(0, 0), (10, 50), (20, 0), (30, 100)] : List (ℤ × ℤ)).getLast? ∧
     (rdp [(0, 0), (10, 50), (20, 0), (30, 100)] (3/2)).length ≤
        ([(0, 0), (10, 50), (20, 0), (30, 100)] : List (ℤ × ℤ)).length ∧
     (([(0, 0), (10, 50), (20, 0), (30, 100)] : List (ℤ × ℤ)).length ≤ 2 →
        rdp [(0, 0), (10, 50), (20, 0), (30, 100)] (3/2) =
          [(0, 0), (10, 50), (20, 0), (30, 100)])) :=
  ⟨by norm_num,
   c7_rdp_reduction [(0, 0), (10, 50), (20, 0), (30, 100)] (3/2) (by norm_num)⟩

/-- `FunscriptAction` dataclass, src/funscript_io.py lines 54-65.  `at` is a
Lean keyword, so the timestamp field is `at'`. -/
structure FunscriptAction where
  at' : ℤ
  pos : ℤ
deriving DecidableEq, Repr

/-- The `controller_axis` column of `AXIS_DEFINITIONS`,
src/funscript_io.py lines 39-46. -/
def axisDefControllerAxis : String → Option String
  | "stroke" => some "y"
  | "surge" => some "z"
  | "sway" => some "x"
  | "twist" => some "yaw"
  | "roll" => some "roll"
  | "pitch" => some "pitch"
  | _ => none

/-- The recording-relevant state of `Recorder`, src/recorder.py lines 71-98.
The Python dicts `_buffer` and `_last_sample_time` are modelled as total
functions: a missing buffer key is the empty list (the code inserts `[]`
before appending) and a missing last-sample key is `-1` (the code reads with
`.get(axis_name, -1)`). `active_axes` is a Python `set`, modelled as a
duplicate-free list in unspecified order. -/
structure Recorder where
  is_recording : Bool
  active_axes : List String
  buffer : String → List FunscriptAction
  last_sample_time : String → ℤ
  min_interval_ms : ℤ

/-- The per-axis body of the `for axis_name in self.active_axes` loop of
`Recorder.add_sample`, src/recorder.py lines 156-179.  When the controller
axis is absent from `mapped_positions` the axis is skipped (so the `.get`
default 50 of the source is never used). -/
def addSampleStep (video_time_ms : ℤ) (mapped_positions : String → Option ℤ)
    (rec : Recorder) (axis_name : String) : Recorder :=
  let controller_axis := (axisDefControllerAxis axis_name).getD axis_name
  match mapped_positions controller_axis with
  | none => rec
  | some pos =>
    let last_time := rec.last_sample_time axis_name
    if 0 ≤ last_time ∧ video_time_ms - last_time < rec.min_interval_ms then rec
    else
      { rec with
        buffer := fun a =>
          if a = axis_name then
            rec.buffer axis_name ++ [⟨video_time_ms, max 0 (min 100 pos)⟩]
          else rec.buffer a
        last_sample_time := fun a =>
          if a = axis_name then video_time_ms else rec.last_sample_time a }

/-- `Recorder.add_sample`, src/recorder.py lines 148-179. -/
def Recorder.add_sample (r : Recorder) (video_time_ms : ℤ)
    (mapped_positions : String → Option ℤ) : Recorder :=
  if !r.is_recording then r
  else r.active_axes.foldl (addSampleStep video_time_ms mapped_positions) r

theorem addSampleStep_preserves (t : ℤ) (m : String → Option ℤ)
    (rec : Recorder) (ax a : String) (hne : a ≠ ax) :
    (addSampleStep t m rec ax).buffer a = rec.buffer a ∧
    (addSampleStep t m rec ax).last_sample_time a = rec.last_sample_time a ∧
    (addSampleStep t m rec ax).min_interval_ms = rec.min_interval_ms := by
  unfold addSampleStep
  cases hm : m ((axisDefControllerAxis ax).getD ax) with
  | none => simp [hm]
  | some p =>
    simp only [hm]
    split_ifs with hc
    · exact ⟨rfl, rfl, rfl⟩
    · exact ⟨by simp [hne], by simp [hne], rfl⟩

theorem foldl_addSampleStep_preserves (t : ℤ) (m : String → Option ℤ)
    (l : List String) (a : String) (ha : a ∉ l) :
    ∀ rec : Recorder,
    (l.foldl (addSampleStep t m) rec).buffer a = rec.buffer a ∧
    (l.foldl (addSampleStep t m) rec).last_sample_time a = rec.last_sample_time a ∧
    (l.foldl (addSampleStep t m) rec).min_interval_ms = rec.min_interval_ms := by
  induction l with
  | nil => intro rec; exact ⟨rfl, rfl, rfl⟩
  | cons b l ih =>
    intro rec
    have hab : a ≠ b := fun hc => ha (hc ▸ List.mem_cons_self b l)
    have hal : a ∉ l := fun hc => ha (List.mem_cons_of_mem b hc)
    rw [List.foldl_cons]
    obtain ⟨ib, il, im⟩ := ih hal (addSampleStep t m rec b)
    obtain ⟨sb, sl, sm⟩ := addSampleStep_preserves t m rec b a hab
    exact ⟨ib.trans sb, il.trans sl, im.trans sm⟩

/-- **C10.**  When `is_recording` is false, `add_sample` leaves the recorder
unchanged.  When recording, for each active axis whose controller axis is
present in the sample with value `p`: if the video timestamp is less than
`min_interval_ms` after the previously accepted sample for that axis
(`last_sample_time ≥ 0`), the sample is silently discarded (that axis's
buffer is unchanged); otherwise an action with position `max 0 (min 100 p)`
— clamped to [0,100] — and timestamp `t` is appended to that axis's buffer,
and the axis's last-sample time becomes `t`. -/
theorem c10_add_sample (r : Recorder) (t : ℤ) (m : String → Option ℤ)
    (axis : String) (p : ℤ)
    (hmem : axis ∈ r.active_axes) (hnodup : r.active_axes.Nodup)
    (hfound : m ((axisDefControllerAxis axis).getD axis) = some p) :
    (r.is_recording = false → r.add_sample t m = r) ∧
    (r.is_recording = true →
      (¬(0 ≤ r.last_sample_time axis ∧
          t - r.last_sample_time axis < r.min_interval_ms) →
        (r.add_sample t m).buffer axis =
          r.buffer axis ++ [⟨t, max 0 (min 100 p)⟩] ∧
        0 ≤ max 0 (min 100 p) ∧ max 0 (min 100 p) ≤ 100 ∧
        (r.add_sample t m).last_sample_time axis = t) ∧
      ((0 ≤ r.last_sample_time axis ∧
          t - r.last_sample_time axis < r.min_interval_ms) →
        (r.add_sample t m).buffer axis = r.buffer axis)) := by
  constructor
  · intro hrec
    unfold Recorder.add_sample
    rw [hrec]
    rfl
  · intro hrec
    unfold Recorder.add_sample
    rw [hrec]
    simp only [Bool.not_true, Bool.false_eq_true, if_false]
    obtain ⟨l₁, l₂, hsplit⟩ := List.append_of_mem hmem
    rw [hsplit]
    rw [hsplit, List.nodup_append] at hnodup
    obtain ⟨h₁, h₂, hdisj⟩ := hnodup
    have hax1 : axis ∉ l₁ := fun hc => hdisj hc (List.mem_cons_self axis l₂)
    have hax2 : axis ∉ l₂ := fun hc => (List.nodup_cons.mp h₂).1 hc
    rw [List.foldl_append, List.foldl_cons]
    obtain ⟨pb, pl, pm⟩ := foldl_addSampleStep_preserves t m l₁ axis hax1 r
    set rec₁ := l₁.foldl (addSampleStep t m) r with hrec₁
    constructor
    · intro hcond
      have hstep : (addSampleStep t m rec₁ axis).buffer axis =
          r.buffer axis ++ [⟨t, max 0 (min 100 p)⟩] ∧
          (addSampleStep t m rec₁ axis).last_sample_time axis = t := by
        unfold addSampleStep
        simp only [hfound]
        rw [if_neg (by rw [pl, pm]; exact hcond)]
        exact ⟨by simp [pb], by simp⟩
      obtain ⟨qb, ql, -⟩ :=
        foldl_addSampleStep_preserves t m l₂ axis hax2 (addSampleStep t m rec₁ axis)
      refine ⟨qb.trans hstep.1, le_max_left _ _, ?_, ql.trans hstep.2⟩
      omega
    · intro hcond
      have hstep : addSampleStep t m rec₁ axis = rec₁ := by
        unfold addSampleStep
        simp only [hfound]
        rw [if_pos (by rw [pl, pm]; exact hcond)]
      rw [hstep]
      obtain ⟨qb, -, -⟩ := foldl_addSampleStep_preserves t m l₂ axis hax2 rec₁
      exact qb.trans pb

/-- C10 witness recorder: recording one axis ("stroke"), empty buffer, no
previous sample, default 11 ms minimum interval. -/
def c10Rec : Recorder :=
  { is_recording := true, active_axes := ["stroke"], buffer := fun _ => [],
    last_sample_time := fun _ => -1, min_interval_ms := 11 }

/-- C10 witness sample: controller axis "y" (the stroke axis) at 120. -/
def c10Map : String → Option ℤ := fun s => if s = "y" then some 120 else none

/-- **C10 witness** for `c10_add_sample`: one active axis, value 120 clamped
to 100. -/
theorem c10_add_sample_witness :
    "stroke" ∈ c10Rec.active_axes ∧ c10Rec.active_axes.Nodup ∧
    c10Map ((axisDefControllerAxis "stroke").getD "stroke") = some 120 ∧
    ((c10Rec.is_recording = false → c10Rec.add_sample 100 c10Map = c10Rec) ∧
     (c10Rec.is_recording = true →
      (¬(0 ≤ c10Rec.last_sample_time "stroke" ∧
          100 - c10Rec.last_sample_time "stroke" < c10Rec.min_interval_ms) →
        (c10Rec.add_sample 100 c10Map).buffer "stroke" =
          c10Rec.buffer "stroke" ++ [⟨100, max 0 (min 100 120)⟩] ∧
        0 ≤ max 0 (min 100 (120:ℤ)) ∧ max 0 (min 100 (120:ℤ)) ≤ 100 ∧
        (c10Rec.add_sample 100 c10Map).last_sample_time "stroke" = 100) ∧
      ((0 ≤ c10Rec.last_sample_time "stroke" ∧
          100 - c10Rec.last_sample_time "stroke" < c10Rec.min_interval_ms) →
        (c10Rec.add_sample 100 c10Map).buffer "stroke" =
          c10Rec.buffer "stroke"))) :=
  ⟨by simp [c10Rec], by simp [c10Rec], by simp [c10Map, axisDefControllerAxis],
   c10_add_sample c10Rec 100 c10Map "stroke" 120
     (by simp [c10Rec]) (by simp [c10Rec])
     (by simp [c10Map, axisDefControllerAxis])⟩

/- ============================================================
   src/beat_detection.py — IOI tempo estimate and the
   detect_beats BPM sanity check
   ============================================================ -/

/-- `np.median` on a list of integers (the intervals), as the float value it
returns: sort, take the middle element, or the mean of the two middle
elements for even length. -/
def npMedian (l : List ℤ) : ℚ :=
  let s := l.mergeSort (fun a b => a ≤ b)
  let n := s.length
  if n % 2 = 1 then ((s.getD (n / 2) 0 : ℤ) : ℚ)
  else (((s.getD (n / 2 - 1) 0 : ℤ) : ℚ) + ((s.getD (n / 2) 0 : ℤ) : ℚ)) / 2

/-- The `while bpm > 200 and bpm / 2 >= 40: bpm /= 2` loop of
`_estimate_tempo_from_ioi`, src/beat_detection.py lines 457-458. -/
def foldDownBpm (bpm : ℚ) : ℚ :=
  if h : 200 < bpm ∧ 40 ≤ bpm / 2 then foldDownBpm (bpm / 2) else bpm
termination_by (⌈bpm⌉).toNat
decreasing_by
  have h1 : (200:ℚ) < bpm := h.1
  have hc : ⌈bpm / 2⌉ ≤ ⌈bpm⌉ - 100 := by
    calc ⌈bpm / 2⌉ ≤ ⌈bpm - (100:ℤ)⌉ := Int.ceil_mono (by push_cast; linarith)
    _ = ⌈bpm⌉ - 100 := Int.ceil_sub_int bpm 100
  have hpos : (0:ℤ) < ⌈bpm⌉ := Int.lt_ceil.mpr (by push_cast; linarith)
  omega

/-- The `while bpm < 50 and bpm * 2 <= 200: bpm *= 2` loop of
`_estimate_tempo_from_ioi`, src/beat_detection.py lines 459-460.  The extra
`0 < bpm` guard makes the loop total: for `bpm ≤ 0` the Python loop never
terminates, and every call site has `bpm = 60000/median > 0`. -/
def foldUpBpm (bpm : ℚ) : ℚ :=
  if h : 0 < bpm ∧ bpm < 50 ∧ bpm * 2 ≤ 200 then foldUpBpm (bpm * 2) else bpm
termination_by (⌈50 / bpm⌉).toNat
decreasing_by
  obtain ⟨h0, h50, -⟩ := h
  have hx : (1:ℚ) < 50 / bpm := (one_lt_div h0).mpr (by linarith)
  have hcx : (2:ℤ) ≤ ⌈50 / bpm⌉ := by
    have := Int.lt_ceil.mpr (show ((1:ℤ):ℚ) < 50 / bpm by push_cast; linarith)
    omega
  have heq : (50:ℚ) / (bpm * 2) = (50 / bpm) / 2 := by
    rw [div_div]
  have h3 : ⌈(50 / bpm) / 2⌉ ≤ ⌈((⌈50 / bpm⌉ : ℚ)) / 2⌉ := by
    apply Int.ceil_mono
    have := Int.le_ceil (50 / bpm)
    linarith
  have h4 : ⌈((⌈50 / bpm⌉ : ℚ)) / 2⌉ ≤ ⌈50 / bpm⌉ - 1 := by
    rw [Int.ceil_le]
    push_cast
    have : (2:ℚ) ≤ (⌈50 / bpm⌉ : ℚ) := by exact_mod_cast hcx
    linarith
  rw [heq]
  omega

theorem foldDownBpm_spec (b : ℚ) : 0 < b → 0 < foldDownBpm b ∧ foldDownBpm b ≤ 200 := by
  induction b using foldDownBpm.induct with
  | case1 b h ih =>
    intro hb
    rw [foldDownBpm, dif_pos h]
    exact ih (by linarith [h.1])
  | case2 b h =>
    intro hb
    rw [foldDownBpm, dif_neg h]
    refine ⟨hb, ?_⟩
    by_cases hb2 : b ≤ 200
    · exact hb2
    · push_neg at h hb2
      linarith [h hb2]

theorem foldUpBpm_spec (b : ℚ) :
    0 < b → b ≤ 200 → 50 ≤ foldUpBpm b ∧ foldUpBpm b ≤ 200 := by
  induction b using foldUpBpm.induct with
  | case1 b h ih =>
    intro hb h200
    rw [foldUpBpm, dif_pos h]
    exact ih (by linarith [h.1]) (by linarith [h.2.2])
  | case2 b h =>
    intro hb h200
    rw [foldUpBpm, dif_neg h]
    refine ⟨?_, h200⟩
    push_neg at h
    by_cases h50 : b < 50
    · linarith [h hb h50]
    · linarith [not_lt.mp h50]

/-- `_estimate_tempo_from_ioi`, src/beat_detection.py lines 431-464:
consecutive onset gaps, keep only gaps strictly inside (150 ms, 2000 ms),
require at least 3, convert the median gap to BPM as `60000/median`, and
fold into range by the two while loops. -/
def estimateTempoFromIoi (onsets_ms : List ℤ) : ℚ :=
  if onsets_ms.length < 4 then 0
  else
    let intervals := (List.zipWith (fun a b => b - a) onsets_ms (onsets_ms.drop 1)).filter
      (fun ioi => decide (150 < ioi ∧ ioi < 2000))
    if intervals.length < 3 then 0
    else
      let median_ioi := npMedian intervals
      if median_ioi ≤ 0 then 0
      else foldUpBpm (foldDownBpm (60000 / median_ioi))

/-- Step 5b of `detect_beats`, src/beat_detection.py lines 276-284: validate
the autocorrelation BPM against the IOI estimate.  `onsets_ms and
len(onsets_ms) >= 4` is `4 ≤ length` (which implies nonemptiness), and the
`if ioi_bpm > 0 else 999` arm of the ratio is unreachable inside the
`if ioi_bpm > 0` block. -/
def sanityCheckBpm (bpm confidence : ℚ) (onsets_ms : List ℤ) : ℚ × ℚ :=
  if 4 ≤ onsets_ms.length then
    let ioi_bpm := estimateTempoFromIoi onsets_ms
    if 0 < ioi_bpm then
      let ratio := bpm / ioi_bpm
      if 9/5 < ratio ∨ ratio < 11/20 then
        (ioi_bpm, max (1/10) (confidence * (1/2)))
      else (bpm, confidence)
    else (bpm, confidence)
  else (bpm, confidence)

theorem estimateTempoFromIoi_cases (os : List ℤ) :
    estimateTempoFromIoi os = 0 ∨
    (50 ≤ estimateTempoFromIoi os ∧ estimateTempoFromIoi os ≤ 200) := by
  simp only [estimateTempoFromIoi]
  split_ifs with h1 h2 h3
  · exact Or.inl rfl
  · exact Or.inl rfl
  · exact Or.inl rfl
  · right
    push_neg at h3
    have hb : 0 < 60000 / npMedian
        ((List.zipWith (fun a b => b - a) os (os.drop 1)).filter
          (fun ioi => decide (150 < ioi ∧ ioi < 2000))) := by positivity
    have hd := foldDownBpm_spec _ hb
    exact foldUpBpm_spec _ hd.1 hd.2

/-- Concrete evaluation: onsets spaced 600 ms apart give an IOI estimate of
exactly 100 BPM. -/
theorem estimateTempoFromIoi_example :
    estimateTempoFromIoi [0, 600, 1200, 1800, 2400] = 100 := by
  have hm : npMedian [600, 600, 600, 600] = 600 := by
    have hs : List.mergeSort [600, 600, 600, 600] (fun a b : ℤ => a ≤ b) =
        [600, 600, 600, 600] :=
      List.mergeSort_eq_self (by decide)
    simp only [npMedian, hs]
    norm_num
  have hd : foldDownBpm 100 = 100 := by
    rw [foldDownBpm]
    norm_num
  have hu : foldUpBpm 100 = 100 := by
    rw [foldUpBpm]
    norm_num
  simp only [estimateTempoFromIoi]
  norm_num [hm, hd, hu]

/-- **C2, counterexample.**  The claim's disagreement condition is
"autocorrelation BPM / IOI BPM greater than 1.8 **or less than 1/1.8**".
The code uses `ratio < 0.55`, and `0.55 < 1/1.8 = 0.5555…`.  With onsets
600 ms apart (IOI estimate exactly 100 BPM, ≥ 4 onsets) and an
autocorrelation BPM of 55.2, the ratio 0.552 is below 1/1.8, so the claim
demands that the reported BPM become the IOI estimate (100) with halved
confidence — but the code leaves (55.2, 0.8) unchanged. -/
theorem c2_counterexample :
    4 ≤ ([0, 600, 1200, 1800, 2400] : List ℤ).length ∧
    estimateTempoFromIoi [0, 600, 1200, 1800, 2400] = 100 ∧
    ((276:ℚ)/5) / 100 < 1 / (9/5) ∧
    sanityCheckBpm (276/5) (4/5) [0, 600, 1200, 1800, 2400] = (276/5, 4/5) ∧
    ((276:ℚ)/5, (4:ℚ)/5) ≠ ((100:ℚ), max (1/10) ((4:ℚ)/5 * (1/2))) := by
  refine ⟨by norm_num, estimateTempoFromIoi_example, by norm_num, ?_, by norm_num⟩
  simp only [sanityCheckBpm, estimateTempoFromIoi_example]
  norm_num

/-- **C2 (amended).**  In `detect_beats`, whenever at least 4 onsets exist
and the IOI estimate is positive, if the autocorrelation BPM divided by the
IOI BPM is greater than 1.8 **or less than 0.55** the reported BPM becomes
the IOI estimate and the confidence is halved with floor 0.1; and
`_estimate_tempo_from_ioi` keeps only consecutive gaps strictly inside
(150 ms, 2000 ms), requires at least 3 of them, converts their median to
BPM as 60000/median and folds by repeated halving/doubling, so any nonzero
value it returns lies in [50, 200]. -/
theorem c2_ioi_sanity_check (bpm conf : ℚ) (onsets : List ℤ)
    (h4 : 4 ≤ onsets.length)
    (hioi : 0 < estimateTempoFromIoi onsets)
    (hdis : 9/5 < bpm / estimateTempoFromIoi onsets ∨
            bpm / estimateTempoFromIoi onsets < 11/20) :
    sanityCheckBpm bpm conf onsets =
      (estimateTempoFromIoi onsets, max (1/10) (conf * (1/2))) ∧
    (∀ os : List ℤ, estimateTempoFromIoi os ≠ 0 →
      50 ≤ estimateTempoFromIoi os ∧ estimateTempoFromIoi os ≤ 200) ∧
    (∀ os : List ℤ, ¬os.length < 4 →
      estimateTempoFromIoi os =
        (if ((List.zipWith (fun a b => b - a) os (os.drop 1)).filter
              (fun ioi => decide (150 < ioi ∧ ioi < 2000))).length < 3 then 0
         else if npMedian ((List.zipWith (fun a b => b - a) os (os.drop 1)).filter
              (fun ioi => decide (150 < ioi ∧ ioi < 2000))) ≤ 0 then 0
         else foldUpBpm (foldDownBpm (60000 /
           npMedian ((List.zipWith (fun a b => b - a) os (os.drop 1)).filter
              (fun ioi => decide (150 < ioi ∧ ioi < 2000))))))) := by
  refine ⟨?_, ?_, ?_⟩
  · simp only [sanityCheckBpm]
    rw [if_pos h4, if_pos hioi, if_pos hdis]
  · intro os hne
    exact (estimateTempoFromIoi_cases os).resolve_left hne
  · intro os hlen
    simp only [estimateTempoFromIoi]
    rw [if_neg hlen]

/-- **C2 witness** for `c2_ioi_sanity_check`: onsets 600 ms apart
(IOI = 100 BPM), autocorrelation BPM 50, ratio 0.5 < 0.55. -/
theorem c2_ioi_sanity_check_witness :
    4 ≤ ([0, 600, 1200, 1800, 2400] : List ℤ).length ∧
    0 < estimateTempoFromIoi [0, 600, 1200, 1800, 2400] ∧
    ((9:ℚ)/5 < 50 / estimateTempoFromIoi [0, 600, 1200, 1800, 2400] ∨
      (50:ℚ) / estimateTempoFromIoi [0, 600, 1200, 1800, 2400] < 11/20) ∧
    (sanityCheckBpm 50 1 [0, 600, 1200, 1800, 2400] =
      (estimateTempoFromIoi [0, 600, 1200, 1800, 2400], max (1/10) (1 * (1/2))) ∧
     (∀ os : List ℤ, estimateTempoFromIoi os ≠ 0 →
       50 ≤ estimateTempoFromIoi os ∧ estimateTempoFromIoi os ≤ 200) ∧
     (∀ os : List ℤ, ¬os.length < 4 →
       estimateTempoFromIoi os =
         (if ((List.zipWith (fun a b => b - a) os (os.drop 1)).filter
               (fun ioi => decide (150 < ioi ∧ ioi < 2000))).length < 3 then 0
          else if npMedian ((List.zipWith (fun a b => b - a) os (os.drop 1)).filter
               (fun ioi => decide (150 < ioi ∧ ioi < 2000))) ≤ 0 then 0
          else foldUpBpm (foldDownBpm (60000 /
            npMedian ((List.zipWith (fun a b => b - a) os (os.drop 1)).filter
               (fun ioi => decide (150 < ioi ∧ ioi < 2000)))))))) :=
  ⟨by norm_num,
   by rw [estimateTempoFromIoi_example]; norm_num,
   by rw [estimateTempoFromIoi_example]; norm_num,
   c2_ioi_sanity_check 50 1 [0, 600, 1200, 1800, 2400] (by norm_num)
     (by rw [estimateTempoFromIoi_example]; norm_num)
     (by rw [estimateTempoFromIoi_example]; norm_num)⟩

/- ============================================================
   src/beat_detection.py — _estimate_tempo octave correction
   ============================================================ -/

/-- `np.argmax`: index of the first maximal element (0 for the empty
list). -/
def idxOfMax (l : List ℚ) : ℕ :=
  (l.enum.foldl (fun best p => if best.2 < p.2 then p else best)
    (0, l.headD 0)).1

/-- `np.max` over a slice (0 for the empty list; every use site slices a
nonempty window). -/
def listMaxD (l : List ℚ) : ℚ :=
  match l with
  | [] => 0
  | h :: t => t.foldl max h

/-- The slice `autocorr[lo:hi]`. -/
def acSlice (ac : List ℚ) (lo hi : ℕ) : List ℚ := (ac.drop lo).take (hi - lo)

/-- `min_lag = max(1, int(frames_per_sec * 60 / 200))`,
src/beat_detection.py line 374.  `int()` truncates toward zero; composed
with `max 1` this equals `max 1 ⌊·⌋.toNat` for every sign of the operand. -/
def etMinLag (fps : ℚ) : ℕ := max 1 (⌊fps * 60 / 200⌋.toNat)

/-- `max_lag = min(len(autocorr) - 1, int(frames_per_sec * 60 / 40))`,
src/beat_detection.py line 375 (for a negative second operand Python would
give a negative `max_lag` and bail out at `min_lag >= max_lag` exactly as
the clamped `toNat` form does). -/
def etMaxLag (ac : List ℚ) (fps : ℚ) : ℕ :=
  min (ac.length - 1) (⌊fps * 60 / 40⌋.toNat)

/-- `search = autocorr[min_lag:max_lag + 1]`, src/beat_detection.py
line 381. -/
def etSearch (ac : List ℚ) (fps : ℚ) : List ℚ :=
  acSlice ac (etMinLag fps) (etMaxLag ac fps + 1)

/-- `peak_idx = np.argmax(search) + min_lag`, src/beat_detection.py
line 385. -/
def etPeakIdx (ac : List ℚ) (fps : ℚ) : ℕ :=
  idxOfMax (etSearch ac fps) + etMinLag fps

/-- The first octave-correction block of `_estimate_tempo`,
src/beat_detection.py lines 391-406: if a window of ±3 samples around twice
the peak lag holds a local peak strictly above 80% of the current peak
value, and the halved BPM stays in [40,200], adopt the halved BPM and the
local peak value. -/
def etOctaveDown (ac : List ℚ) (peak_idx : ℕ) (bpm peak_val : ℚ) : ℚ × ℚ :=
  let double_lag := peak_idx * 2
  if double_lag < ac.length then
    let local_peak := listMaxD (acSlice ac (double_lag - 3) (min ac.length (double_lag + 4)))
    if peak_val * (8/10) < local_peak then
      let half_bpm := bpm / 2
      if 40 ≤ half_bpm ∧ half_bpm ≤ 200 then (half_bpm, local_peak)
      else (bpm, peak_val)
    else (bpm, peak_val)
  else (bpm, peak_val)

/-- The second octave-correction block of `_estimate_tempo`,
src/beat_detection.py lines 408-417: if half the peak lag is still at least
`min_lag` and a window of ±2 samples around it holds a local peak strictly
above 85% of the (possibly already updated) peak value, and the doubled BPM
stays in [40,200], adopt the doubled BPM. -/
def etOctaveUp (ac : List ℚ) (min_lag peak_idx : ℕ) (bpm peak_val : ℚ) : ℚ :=
  let half_lag := peak_idx / 2
  if min_lag ≤ half_lag then
    let local_peak := listMaxD (acSlice ac (half_lag - 2) (min ac.length (half_lag + 3)))
    if peak_val * (17/20) < local_peak then
      let double_bpm := bpm * 2
      if 40 ≤ double_bpm ∧ double_bpm ≤ 200 then double_bpm else bpm
    else bpm
  else bpm

/-- `_estimate_tempo`, src/beat_detection.py lines 367-428, from the point
where the positive-lag autocorrelation array `autocorr[n:]` is in hand (it
is the parameter `ac` here; the `n < 100` early exit concerns the
onset-envelope length and precedes this part). -/
def estimateTempoFromAutocorr (ac : List ℚ) (fps : ℚ) : ℚ × ℚ :=
  if etMaxLag ac fps ≤ etMinLag fps then (0, 0)
  else if etSearch ac fps = [] then (0, 0)
  else
    let peak_idx := etPeakIdx ac fps
    let peak_val := ac.getD peak_idx 0
    let bpm := 60 * fps / (peak_idx : ℚ)
    let down := etOctaveDown ac peak_idx bpm peak_val
    let bpm2 := etOctaveUp ac (etMinLag fps) peak_idx down.1 down.2
    let confidence := down.2 / (ac.getD 0 0 + 1 / 10000000000)
    (bpm2, min 1 (max 0 confidence))

/-- C3 counterexample autocorrelation array: primary peak 10 at lag 6
inside the 40-200 BPM window for `fps = 10`, and a local peak of exactly
8 = 80% of 10 in the ±3 window around lag 12. -/
def c3Ac : List ℚ := [0, 0, 0, 0, 0, 0, 10, 0, 0, 0, 0, 0, 8, 0, 0, 0]

theorem c3Ac_minLag : etMinLag 10 = 3 := by
  norm_num [etMinLag]
  decide

theorem c3Ac_maxLag : etMaxLag c3Ac 10 = 15 := by
  norm_num [etMaxLag, c3Ac]

theorem c3Ac_search : etSearch c3Ac 10 = [0, 0, 0, 10, 0, 0, 0, 0, 0, 8, 0, 0, 0] := by
  rw [etSearch, c3Ac_minLag, c3Ac_maxLag]
  norm_num [acSlice, c3Ac]

theorem c3Ac_peakIdx : etPeakIdx c3Ac 10 = 6 := by
  rw [etPeakIdx, c3Ac_search, c3Ac_minLag]
  norm_num [idxOfMax, List.enum, List.enumFrom]

/-- **C3, counterexample.**  The claim's first octave check fires when the
local peak near double the lag "reaches at least 80%" of the primary peak.
The code requires *strictly more* than 80% (`local_peak > peak_val * 0.8`).
On `c3Ac` with `fps = 10` the primary peak is 10 at lag 6 (BPM 100), the
±3 window around lag 12 peaks at exactly 8 = 80% of 10, and the halved
BPM 50 lies in [40,200] — so the claim demands that the halved BPM be
adopted, but the code reports 100 unchanged. -/
theorem c3_counterexample :
    etPeakIdx c3Ac 10 = 6 ∧
    c3Ac.getD 6 0 = 10 ∧
    (60 * (10:ℚ) / ((6:ℕ) : ℚ) = 100) ∧
    listMaxD (acSlice c3Ac (6 * 2 - 3) (min c3Ac.length (6 * 2 + 4))) = (8/10) * 10 ∧
    ((40:ℚ) ≤ 100 / 2 ∧ (100:ℚ) / 2 ≤ 200) ∧
    (estimateTempoFromAutocorr c3Ac 10).1 = 100 ∧
    (100:ℚ) ≠ 100 / 2 := by
  have hget : c3Ac.getD 6 0 = 10 := by norm_num [c3Ac]
  have hbpm : 60 * (10:ℚ) / ((6:ℕ) : ℚ) = 100 := by norm_num
  have hwin : listMaxD (acSlice c3Ac (6 * 2 - 3) (min c3Ac.length (6 * 2 + 4))) =
      (8/10) * 10 := by
    norm_num [acSlice, c3Ac, listMaxD]
  have hdown : etOctaveDown c3Ac 6 100 10 = (100, 10) := by
    simp only [etOctaveDown]
    rw [if_pos (by norm_num [c3Ac])]
    rw [if_neg (by rw [hwin]; norm_num)]
  have hup : etOctaveUp c3Ac 3 6 100 10 = 100 := by
    simp only [etOctaveUp]
    rw [if_pos (by norm_num)]
    rw [if_neg (by norm_num [acSlice, c3Ac, listMaxD])]
  have hmain : (estimateTempoFromAutocorr c3Ac 10).1 = 100 := by
    simp only [estimateTempoFromAutocorr]
    rw [if_neg (by rw [c3Ac_maxLag, c3Ac_minLag]; norm_num)]
    rw [if_neg (by rw [c3Ac_search]; simp)]
    rw [c3Ac_peakIdx, c3Ac_minLag, hget, hbpm, hdown]
    simp [hup]
  exact ⟨c3Ac_peakIdx, hget, hbpm, hwin, by norm_num, hmain, by norm_num⟩

/-- **C3 (amended).**  In `_estimate_tempo`, after picking the (first)
maximal autocorrelation lag inside the 40-200 BPM window: if the maximum
autocorrelation within ±3 samples of double that lag **strictly exceeds**
80% of the primary peak and the halved BPM lies within [40,200], the halved
BPM is adopted and the reference peak value updated; then, **provided half
the lag is still at least the window's minimum lag**, if the local peak
within ±2 samples of half the lag **strictly exceeds** 85% of the (possibly
already halved) peak value and the doubled BPM lies within [40,200], the
doubled BPM is adopted; and the reported BPM is exactly the result of the
two corrections applied in that order to the primary peak's BPM. -/
theorem c3_octave_correction (ac : List ℚ) (fps : ℚ) (p min_lag : ℕ) (bpm pv : ℚ)
    (hml : etMinLag fps < etMaxLag ac fps)
    (hs : etSearch ac fps ≠ []) :
    (p * 2 < ac.length →
      pv * (8/10) < listMaxD (acSlice ac (p * 2 - 3) (min ac.length (p * 2 + 4))) →
      40 ≤ bpm / 2 ∧ bpm / 2 ≤ 200 →
      etOctaveDown ac p bpm pv =
        (bpm / 2, listMaxD (acSlice ac (p * 2 - 3) (min ac.length (p * 2 + 4))))) ∧
    (min_lag ≤ p / 2 →
      pv * (17/20) < listMaxD (acSlice ac (p / 2 - 2) (min ac.length (p / 2 + 3))) →
      40 ≤ bpm * 2 ∧ bpm * 2 ≤ 200 →
      etOctaveUp ac min_lag p bpm pv = bpm * 2) ∧
    (estimateTempoFromAutocorr ac fps).1 =
      etOctaveUp ac (etMinLag fps) (etPeakIdx ac fps)
        (etOctaveDown ac (etPeakIdx ac fps)
          (60 * fps / ((etPeakIdx ac fps : ℕ) : ℚ)) (ac.getD (etPeakIdx ac fps) 0)).1
        (etOctaveDown ac (etPeakIdx ac fps)
          (60 * fps / ((etPeakIdx ac fps : ℕ) : ℚ)) (ac.getD (etPeakIdx ac fps) 0)).2 := by
  refine ⟨fun h1 h2 h3 => ?_, fun h1 h2 h3 => ?_, ?_⟩
  · simp only [etOctaveDown]
    rw [if_pos h1, if_pos h2, if_pos h3]
  · simp only [etOctaveUp]
    rw [if_pos h1, if_pos h2, if_pos h3]
  · simp only [estimateTempoFromAutocorr]
    rw [if_neg (not_le.mpr hml), if_neg hs]

/-- **C3 witness** for `c3_octave_correction` at the `c3Ac` array. -/
theorem c3_octave_correction_witness :
    etMinLag 10 < etMaxLag c3Ac 10 ∧ etSearch c3Ac 10 ≠ [] ∧
    ((6 * 2 < c3Ac.length →
      (10:ℚ) * (8/10) < listMaxD (acSlice c3Ac (6 * 2 - 3) (min c3Ac.length (6 * 2 + 4))) →
      40 ≤ (100:ℚ) / 2 ∧ (100:ℚ) / 2 ≤ 200 →
      etOctaveDown c3Ac 6 100 10 =
        (100 / 2, listMaxD (acSlice c3Ac (6 * 2 - 3) (min c3Ac.length (6 * 2 + 4))))) ∧
     ((3:ℕ) ≤ 6 / 2 →
      (10:ℚ) * (17/20) < listMaxD (acSlice c3Ac (6 / 2 - 2) (min c3Ac.length (6 / 2 + 3))) →
      40 ≤ (100:ℚ) * 2 ∧ (100:ℚ) * 2 ≤ 200 →
      etOctaveUp c3Ac 3 6 100 10 = 100 * 2) ∧
     (estimateTempoFromAutocorr c3Ac 10).1 =
      etOctaveUp c3Ac (etMinLag 10) (etPeakIdx c3Ac 10)
        (etOctaveDown c3Ac (etPeakIdx c3Ac 10)
          (60 * 10 / ((etPeakIdx c3Ac 10 : ℕ) : ℚ)) (c3Ac.getD (etPeakIdx c3Ac 10) 0)).1
        (etOctaveDown c3Ac (etPeakIdx c3Ac 10)
          (60 * 10 / ((etPeakIdx c3Ac 10 : ℕ) : ℚ)) (c3Ac.getD (etPeakIdx c3Ac 10) 0)).2) :=
  ⟨by rw [c3Ac_minLag, c3Ac_maxLag]; norm_num,
   by rw [c3Ac_search]; simp,
   c3_octave_correction c3Ac 10 6 3 100 10
     (by rw [c3Ac_minLag, c3Ac_maxLag]; norm_num)
     (by rw [c3Ac_search]; simp)⟩

/- ============================================================
   src/main_window.py — _apply_beat_snap_with_strength, with
   src/funscript_io.py — FunscriptAxis.sort_actions /
   remove_duplicates and src/beat_detection.py —
   BeatData.get_beat_grid
   ============================================================ -/

/-- `BeatData.get_beat_grid`, src/beat_detection.py lines 40-53: beats plus
`subdivisions` evenly spaced (truncated) subdivision points per beat
interval, closed by the final beat. -/
def getBeatGrid (beats : List ℤ) (subdivisions : ℕ) : List ℤ :=
  if beats.length < 2 then beats
  else
    (List.range (beats.length - 1)).foldl (fun grid i =>
      let start := beats.getD i 0
      let stop := beats.getD (i + 1) 0
      let step : ℚ := ((stop - start : ℤ) : ℚ) / (subdivisions : ℚ)
      grid ++ (List.range subdivisions).map
        (fun s => pyTrunc ((start : ℚ) + (s : ℚ) * step))) []
    ++ [beats.getLastD 0]

/-- `min(grid, key=lambda b: abs(b - action.at))`, src/main_window.py
line 1546: the first minimiser, as Python's `min` keeps the earlier element
on ties.  Python raises on an empty grid (the caller guarantees
nonemptiness); the embedding returns `t` there. -/
def nearestGridPoint (grid : List ℤ) (t : ℤ) : ℤ :=
  match grid with
  | [] => t
  | g :: gs => gs.foldl (fun best b => if |b - t| < |best - t| then b else best) g

/-- `FunscriptAxis.sort_actions`, src/funscript_io.py lines 76-78:
stable sort by timestamp (Python `list.sort` and `mergeSort` are both
stable). -/
def sortActions (l : List FunscriptAction) : List FunscriptAction :=
  l.mergeSort (fun a b => a.at' ≤ b.at')

/-- One `seen[action.at] = action` dict assignment of
`FunscriptAxis.remove_duplicates`, src/funscript_io.py line 84, on an
insertion-ordered association list (Python dicts preserve the insertion
position of an existing key and update its value in place). -/
def updSeen (seen : List (ℤ × FunscriptAction)) (a : FunscriptAction) :
    List (ℤ × FunscriptAction) :=
  match seen with
  | [] => [(a.at', a)]
  | (k, v) :: rest =>
    if k = a.at' then (k, a) :: rest else (k, v) :: updSeen rest a

/-- `FunscriptAxis.remove_duplicates`, src/funscript_io.py lines 80-87:
sort, build the timestamp-keyed dict keeping the last action per
timestamp, take the values, sort again. -/
def removeDuplicates (l : List FunscriptAction) : List FunscriptAction :=
  let s := sortActions l
  let seen := s.foldl updSeen []
  sortActions (seen.map Prod.snd)

/-- The per-action body of the snap loop of
`_apply_beat_snap_with_strength`, src/main_window.py lines 1544-1556:
within tolerance, move the timestamp to the truncated linear interpolation
toward the nearest grid point (`int(...)` truncates; the code's
`if new_at != original_at` guard only skips a no-op assignment). -/
def snapActionToGrid (grid : List ℤ) (tolerance_ms blend : ℚ)
    (a : FunscriptAction) : FunscriptAction :=
  let nearest := nearestGridPoint grid a.at'
  let dist : ℚ := |((nearest - a.at' : ℤ) : ℚ)|
  if dist ≤ tolerance_ms then
    { a with at' := pyTrunc ((a.at' : ℚ) + ((nearest - a.at' : ℤ) : ℚ) * blend) }
  else a

/-- `_apply_beat_snap_with_strength`, src/main_window.py lines 1504-1577,
with no timeline selection (the claim's case: the whole axis is the
target): `blend = strength/100`, `tolerance_ms = 60000/max(1,bpm)*0.6`,
snap every action, then `axis.sort_actions()` and
`axis.remove_duplicates()`. -/
def applyBeatSnap (actions : List FunscriptAction) (grid : List ℤ) (bpm : ℚ)
    (strength : ℤ) : List FunscriptAction :=
  removeDuplicates (sortActions (actions.map
    (snapActionToGrid grid (60000 / max 1 bpm * (6/10)) ((strength : ℚ) / 100))))

theorem sortActions_perm (l : List FunscriptAction) : (sortActions l).Perm l :=
  List.mergeSort_perm l _

theorem sortActions_sorted (l : List FunscriptAction) :
    (sortActions l).Pairwise (fun a b => a.at' ≤ b.at') := by
  unfold sortActions
  refine List.Pairwise.imp ?_ (List.sorted_mergeSort ?_ ?_ l)
  · intro a b hab
    simpa using hab
  · intro a b c hab hbc
    simp only [decide_eq_true_eq] at *
    omega
  · intro a b
    rw [Bool.or_eq_true]
    simp only [decide_eq_true_eq]
    omega

theorem sortActions_of_sorted {l : List FunscriptAction}
    (h : l.Pairwise (fun a b => a.at' ≤ b.at')) : sortActions l = l :=
  List.mergeSort_of_sorted (h.imp (fun hab => by simpa using hab))

theorem sortActions_idem (l : List FunscriptAction) :
    sortActions (sortActions l) = sortActions l :=
  sortActions_of_sorted (sortActions_sorted l)

/-- Invariant of the dedup dict: keys are distinct and every value's
timestamp is its key. -/
def seenInv (seen : List (ℤ × FunscriptAction)) : Prop :=
  (seen.map Prod.fst).Nodup ∧ ∀ p ∈ seen, (p.2).at' = p.1

theorem updSeen_keys (a : FunscriptAction) :
    ∀ seen : List (ℤ × FunscriptAction),
    (updSeen seen a).map Prod.fst =
      if a.at' ∈ seen.map Prod.fst then seen.map Prod.fst
      else seen.map Prod.fst ++ [a.at'] := by
  intro seen
  induction seen with
  | nil => simp [updSeen]
  | cons p rest ih =>
    obtain ⟨k, v⟩ := p
    by_cases hk : k = a.at'
    · simp [updSeen, hk]
    · simp only [updSeen, if_neg hk, List.map_cons, ih]
      by_cases hmem : a.at' ∈ rest.map Prod.fst
      · rw [if_pos hmem, if_pos (List.mem_cons_of_mem k hmem)]
      · rw [if_neg hmem, if_neg ?nomem, List.cons_append]
        case nomem =>
          intro hc
          rcases List.mem_cons.mp hc with hc | hc
          · exact hk hc.symm
          · exact hmem hc

theorem updSeen_inv (a : FunscriptAction) :
    ∀ seen : List (ℤ × FunscriptAction), seenInv seen → seenInv (updSeen seen a) := by
  intro seen
  induction seen with
  | nil =>
    intro _
    refine ⟨by simp [updSeen], ?_⟩
    intro p hp
    simp only [updSeen, List.mem_singleton] at hp
    rw [hp]
  | cons q rest ih =>
    obtain ⟨k, v⟩ := q
    intro ⟨hnd, hvals⟩
    rw [List.map_cons, List.nodup_cons] at hnd
    obtain ⟨hknot, hndrest⟩ := hnd
    have hrest : seenInv rest :=
      ⟨hndrest, fun p hp => hvals p (List.mem_cons_of_mem _ hp)⟩
    by_cases hk : k = a.at'
    · refine ⟨?_, ?_⟩
      · simp only [updSeen, if_pos hk, List.map_cons, List.nodup_cons]
        exact ⟨hknot, hndrest⟩
      · intro p hp
        simp only [updSeen, if_pos hk, List.mem_cons] at hp
        rcases hp with hp | hp
        · rw [hp]; exact hk.symm
        · exact hvals p (List.mem_cons_of_mem _ hp)
    · obtain ⟨ihnd, ihvals⟩ := ih hrest
      refine ⟨?_, ?_⟩
      · simp only [updSeen, if_neg hk, List.map_cons, List.nodup_cons]
        refine ⟨?_, ihnd⟩
        rw [updSeen_keys]
        by_cases hmem : a.at' ∈ rest.map Prod.fst
        · rw [if_pos hmem]; exact hknot
        · rw [if_neg hmem]
          intro hc
          rcases List.mem_append.mp hc with hc | hc
          · exact hknot hc
          · exact hk (List.mem_singleton.mp hc)
      · intro p hp
        simp only [updSeen, if_neg hk, List.mem_cons] at hp
        rcases hp with hp | hp
        · rw [hp]; exact hvals (k, v) (List.mem_cons_self _ _)
        · exact ihvals p hp

/-- Dict lookup on the insertion-ordered association list. -/
def lookupSeen (seen : List (ℤ × FunscriptAction)) (t : ℤ) : Option FunscriptAction :=
  (seen.find? (fun p => decide (p.1 = t))).map Prod.snd

theorem getLast?_cons_or {α : Type} (a : α) (l : List α) :
    (a :: l).getLast? = l.getLast?.or (some a) := by
  cases l with
  | nil => simp
  | cons b m =>
    rw [List.getLast?_cons_cons]
    obtain ⟨x, hx⟩ := Option.isSome_iff_exists.mp
      (List.getLast?_isSome.mpr (List.cons_ne_nil b m))
    rw [hx]
    rfl

theorem lookupSeen_updSeen (a : FunscriptAction) (t : ℤ) :
    ∀ seen, lookupSeen (updSeen seen a) t =
      if a.at' = t then some a else lookupSeen seen t := by
  intro seen
  induction seen with
  | nil =>
    by_cases h : a.at' = t
    · rw [if_pos h]
      simp only [updSeen, lookupSeen]
      rw [List.find?_cons_of_pos _ (by simpa using h)]
      rfl
    · rw [if_neg h]
      simp only [updSeen, lookupSeen]
      rw [List.find?_cons_of_neg _ (by simpa using h)]
  | cons q rest ih =>
    obtain ⟨k, v⟩ := q
    simp only [updSeen]
    by_cases hk : k = a.at'
    · rw [if_pos hk]
      simp only [lookupSeen]
      by_cases hkt : k = t
      · have ht : a.at' = t := hk ▸ hkt
        rw [List.find?_cons_of_pos _ (by simpa using hkt),
            List.find?_cons_of_pos _ (by simpa using hkt), if_pos ht]
        rfl
      · have ht : ¬a.at' = t := fun hc => hkt (hk.trans hc)
        rw [List.find?_cons_of_neg _ (by simpa using hkt),
            List.find?_cons_of_neg _ (by simpa using hkt), if_neg ht]
    · rw [if_neg hk]
      simp only [lookupSeen]
      by_cases hkt : k = t
      · have ht : ¬a.at' = t := fun hc => hk (by rw [hkt, hc])
        rw [List.find?_cons_of_pos _ (by simpa using hkt),
            List.find?_cons_of_pos _ (by simpa using hkt), if_neg ht]
      · rw [List.find?_cons_of_neg _ (by simpa using hkt),
            List.find?_cons_of_neg _ (by simpa using hkt)]
        exact ih

theorem lookupSeen_foldl (t : ℤ) :
    ∀ (s : List FunscriptAction) (seen : List (ℤ × FunscriptAction)),
    lookupSeen (s.foldl updSeen seen) t =
      ((s.filter (fun x => decide (x.at' = t))).getLast?).or (lookupSeen seen t) := by
  intro s
  induction s with
  | nil => intro seen; simp
  | cons a s ih =>
    intro seen
    rw [List.foldl_cons, ih]
    by_cases ht : a.at' = t
    · rw [List.filter_cons_of_pos (by simpa using ht), getLast?_cons_or,
          lookupSeen_updSeen, if_pos ht, Option.or_assoc]
      congr 1
    · rw [List.filter_cons_of_neg (by simpa using ht),
          lookupSeen_updSeen, if_neg ht]

theorem filter_map_snd (t : ℤ) :
    ∀ seen : List (ℤ × FunscriptAction), seenInv seen →
    (seen.map Prod.snd).filter (fun x => decide (x.at' = t)) =
      (lookupSeen seen t).toList := by
  intro seen
  induction seen with
  | nil => intro _; simp [lookupSeen]
  | cons q rest ih =>
    obtain ⟨k, v⟩ := q
    intro hinv
    obtain ⟨hnd, hvals⟩ := hinv
    rw [List.map_cons, List.nodup_cons] at hnd
    obtain ⟨hknot, hndrest⟩ := hnd
    have hvk : v.at' = k := hvals (k, v) (List.mem_cons_self _ _)
    have hinv' : seenInv rest :=
      ⟨hndrest, fun p hp => hvals p (List.mem_cons_of_mem _ hp)⟩
    rw [List.map_cons]
    by_cases hk : k = t
    · have hrest : lookupSeen rest t = none := by
        rw [lookupSeen, List.find?_eq_none.mpr, Option.map_none']
        intro p hp
        simp only [decide_eq_true_eq]
        intro hc
        have hm : p.1 ∈ List.map Prod.fst rest := List.mem_map_of_mem Prod.fst hp
        rw [hc] at hm
        exact hknot (by rw [hk]; exact hm)
      have hempty : (rest.map Prod.snd).filter (fun x => decide (x.at' = t)) = [] := by
        rw [ih hinv', hrest]
        rfl
      rw [List.filter_cons_of_pos (by simp [hvk, hk]), hempty]
      rw [lookupSeen, List.find?_cons_of_pos _ (by simpa using hk)]
      rfl
    · rw [List.filter_cons_of_neg (by simp [hvk, hk]), ih hinv']
      congr 1
      rw [lookupSeen, lookupSeen, List.find?_cons_of_neg _ (by simpa using hk)]

theorem foldl_updSeen_inv (s : List FunscriptAction) :
    ∀ seen, seenInv seen → seenInv (s.foldl updSeen seen) := by
  induction s with
  | nil => intro seen h; exact h
  | cons a s ih =>
    intro seen h
    rw [List.foldl_cons]
    exact ih _ (updSeen_inv a seen h)

/-- `remove_duplicates` yields a strictly-ascending (hence duplicate-free)
list, and per timestamp keeps exactly the last action of the sorted input
carrying that timestamp. -/
theorem removeDuplicates_spec (l : List FunscriptAction) :
    (removeDuplicates l).Pairwise (fun a b => a.at' < b.at') ∧
    (∀ t : ℤ, (removeDuplicates l).filter (fun x => decide (x.at' = t)) =
      ((sortActions l).filter (fun x => decide (x.at' = t))).getLast?.toList) := by
  have hinv : seenInv ((sortActions l).foldl updSeen []) :=
    foldl_updSeen_inv (sortActions l) [] ⟨List.nodup_nil, by simp⟩
  constructor
  · simp only [removeDuplicates]
    set vals := ((sortActions l).foldl updSeen []).map Prod.snd with hvals
    have hsorted := sortActions_sorted vals
    have hperm : (sortActions vals).Perm vals := sortActions_perm vals
    have hkeys : vals.map (fun x => x.at') =
        ((sortActions l).foldl updSeen []).map Prod.fst := by
      rw [hvals, List.map_map]
      exact List.map_congr_left (fun p hp => hinv.2 p hp)
    have hnd : ((sortActions vals).map (fun x => x.at')).Nodup := by
      refine ((hperm.map _).nodup_iff).mpr ?_
      rw [hkeys]
      exact hinv.1
    have hne : (sortActions vals).Pairwise (fun a b => a.at' ≠ b.at') :=
      List.pairwise_map.mp hnd
    exact (hsorted.and hne).imp (fun h => lt_of_le_of_ne h.1 h.2)
  · intro t
    simp only [removeDuplicates]
    have h1 := filter_map_snd t ((sortActions l).foldl updSeen []) hinv
    have h2 := lookupSeen_foldl t (sortActions l) []
    have h3 : lookupSeen ([] : List (ℤ × FunscriptAction)) t = none := rfl
    rw [h3, Option.or_none] at h2
    have hperm := (sortActions_perm (((sortActions l).foldl updSeen []).map Prod.snd)).filter
      (fun x => decide (x.at' = t))
    rw [h1, h2] at hperm
    cases hcase : ((sortActions l).filter (fun x => decide (x.at' = t))).getLast? with
    | none =>
      rw [hcase] at hperm
      simpa using hperm
    | some v =>
      rw [hcase] at hperm
      simpa [List.perm_singleton] using hperm

theorem pyTrunc_intCast (m : ℤ) : pyTrunc ((m : ℤ) : ℚ) = m := by
  unfold pyTrunc
  split_ifs with h
  · rw [← Int.cast_neg, Int.floor_intCast]
    omega
  · rw [Int.floor_intCast]

/-- **C4, counterexample.**  The claim states that an in-tolerance action
moves to `new_at = at + (nearest - at) * (s/100)` exactly.  The code stores
`int(...)` of that value (truncation): with one action at 0, grid point 10,
60 BPM (tolerance 600 ≥ distance 10) and strength 25, the claimed new
timestamp is 2.5 but the action lands at 2. -/
theorem c4_counterexample :
    ([10] : List ℤ) = getBeatGrid [10] 4 ∧
    |(((10:ℤ) - 0 : ℤ) : ℚ)| ≤ 60000 / max 1 (60:ℚ) * (6/10) ∧
    applyBeatSnap [⟨0, 0⟩] [10] 60 25 = [⟨2, 0⟩] ∧
    (0:ℚ) + ((10:ℚ) - 0) * (25/100) = 5/2 ∧
    ((2:ℚ) ≠ 5/2) := by
  refine ⟨by simp [getBeatGrid], by norm_num, ?_, by norm_num, by norm_num⟩
  have hnear : nearestGridPoint [10] 0 = 10 := rfl
  have hsnap : snapActionToGrid [10] (60000 / max 1 (60:ℚ) * (6/10))
      (((25:ℤ) : ℚ) / 100) ⟨0, 0⟩ = ⟨2, 0⟩ := by
    simp only [snapActionToGrid, hnear]
    rw [if_pos (by norm_num)]
    have harg : (((0:ℤ) : ℚ)) + (((10:ℤ) - 0 : ℤ) : ℚ) * (((25:ℤ) : ℚ) / 100) =
        ((2 : ℤ) : ℚ) + 1/2 := by push_cast; ring
    simp only [harg]
    have : pyTrunc (((2 : ℤ) : ℚ) + 1/2) = 2 := by
      unfold pyTrunc
      rw [if_neg (by push_cast; norm_num)]
      rw [show ((2:ℤ):ℚ) + 1/2 = 5/2 by push_cast; ring]
      norm_num
    rw [this]
  simp only [applyBeatSnap, List.map_cons, List.map_nil, hsnap]
  simp [removeDuplicates, sortActions, updSeen]

/-- **C4 (amended).**  For every non-empty action list, non-empty beat grid
and strength `s ∈ [0,100]`: beat snap maps each action whose nearest grid
timestamp is within 60% of one beat interval to
`new_at = int(at + (nearest - at) * (s/100))` — the *truncated* linear
interpolation, so at `s = 100` it lands exactly on its nearest grid point
and at `s = 0` it is exactly unchanged — leaves actions outside tolerance
untouched, and afterwards the axis's actions are re-sorted ascending
(strictly, after deduplication) with, per timestamp, exactly the last
action of the sorted snapped list kept. -/
theorem c4_beat_snap (actions : List FunscriptAction) (beats : List ℤ)
    (subdivisions : ℕ) (grid : List ℤ) (bpm : ℚ) (s : ℤ)
    (_hact : actions ≠ []) (_hgridEq : grid = getBeatGrid beats subdivisions)
    (_hgrid : grid ≠ []) (_hs0 : 0 ≤ s) (_hs1 : s ≤ 100) :
    applyBeatSnap actions grid bpm s =
      removeDuplicates (sortActions (actions.map
        (snapActionToGrid grid (60000 / max 1 bpm * (6/10)) ((s : ℚ) / 100)))) ∧
    (∀ a : FunscriptAction,
      |((nearestGridPoint grid a.at' - a.at' : ℤ) : ℚ)| ≤ 60000 / max 1 bpm * (6/10) →
      (snapActionToGrid grid (60000 / max 1 bpm * (6/10)) ((s : ℚ) / 100) a).at' =
        pyTrunc ((a.at' : ℚ) +
          ((nearestGridPoint grid a.at' - a.at' : ℤ) : ℚ) * ((s : ℚ) / 100))) ∧
    (s = 100 → ∀ a : FunscriptAction,
      |((nearestGridPoint grid a.at' - a.at' : ℤ) : ℚ)| ≤ 60000 / max 1 bpm * (6/10) →
      (snapActionToGrid grid (60000 / max 1 bpm * (6/10)) ((s : ℚ) / 100) a).at' =
        nearestGridPoint grid a.at') ∧
    (s = 0 → ∀ a : FunscriptAction,
      snapActionToGrid grid (60000 / max 1 bpm * (6/10)) ((s : ℚ) / 100) a = a) ∧
    (∀ a : FunscriptAction,
      ¬(|((nearestGridPoint grid a.at' - a.at' : ℤ) : ℚ)| ≤ 60000 / max 1 bpm * (6/10)) →
      snapActionToGrid grid (60000 / max 1 bpm * (6/10)) ((s : ℚ) / 100) a = a) ∧
    (applyBeatSnap actions grid bpm s).Pairwise (fun x y => x.at' < y.at') ∧
    (∀ t : ℤ, (applyBeatSnap actions grid bpm s).filter (fun x => decide (x.at' = t)) =
      ((sortActions (actions.map
        (snapActionToGrid grid (60000 / max 1 bpm * (6/10)) ((s : ℚ) / 100)))).filter
          (fun x => decide (x.at' = t))).getLast?.toList) := by
  refine ⟨rfl, ?_, ?_, ?_, ?_, ?_, ?_⟩
  · intro a h
    simp only [snapActionToGrid]
    rw [if_pos h]
  · intro hs a h
    subst hs
    simp only [snapActionToGrid]
    rw [if_pos h]
    have harg : ((a.at' : ℤ) : ℚ) +
        ((nearestGridPoint grid a.at' - a.at' : ℤ) : ℚ) * (((100:ℤ) : ℚ) / 100) =
        ((nearestGridPoint grid a.at' : ℤ) : ℚ) := by
      push_cast
      ring
    rw [harg, pyTrunc_intCast]
  · intro hs a
    subst hs
    simp only [snapActionToGrid]
    by_cases h : |((nearestGridPoint grid a.at' - a.at' : ℤ) : ℚ)| ≤
        60000 / max 1 bpm * (6/10)
    · rw [if_pos h]
      have harg : ((a.at' : ℤ) : ℚ) +
          ((nearestGridPoint grid a.at' - a.at' : ℤ) : ℚ) * (((0:ℤ) : ℚ) / 100) =
          ((a.at' : ℤ) : ℚ) := by
        push_cast
        ring
      rw [harg, pyTrunc_intCast]
    · rw [if_neg h]
  · intro a h
    simp only [snapActionToGrid]
    rw [if_neg h]
  · simp only [applyBeatSnap]
    exact (removeDuplicates_spec _).1
  · intro t
    simp only [applyBeatSnap]
    rw [(removeDuplicates_spec _).2 t, sortActions_idem]

/-- **C4 witness** for `c4_beat_snap`: one action at 0, grid point 10,
60 BPM, strength 25. -/
theorem c4_beat_snap_witness :
    ([⟨0, 0⟩] : List FunscriptAction) ≠ [] ∧
    ([10] : List ℤ) = getBeatGrid [10] 4 ∧ ([10] : List ℤ) ≠ [] ∧
    ((0:ℤ) ≤ 25 ∧ (25:ℤ) ≤ 100) ∧
    (applyBeatSnap [⟨0, 0⟩] [10] 60 25 =
      removeDuplicates (sortActions (([⟨0, 0⟩] : List FunscriptAction).map
        (snapActionToGrid [10] (60000 / max 1 (60:ℚ) * (6/10)) (((25:ℤ) : ℚ) / 100)))) ∧
     (∀ a : FunscriptAction,
      |((nearestGridPoint [10] a.at' - a.at' : ℤ) : ℚ)| ≤ 60000 / max 1 (60:ℚ) * (6/10) →
      (snapActionToGrid [10] (60000 / max 1 (60:ℚ) * (6/10)) (((25:ℤ) : ℚ) / 100) a).at' =
        pyTrunc ((a.at' : ℚ) +
          ((nearestGridPoint [10] a.at' - a.at' : ℤ) : ℚ) * (((25:ℤ) : ℚ) / 100))) ∧
     ((25:ℤ) = 100 → ∀ a : FunscriptAction,
      |((nearestGridPoint [10] a.at' - a.at' : ℤ) : ℚ)| ≤ 60000 / max 1 (60:ℚ) * (6/10) →
      (snapActionToGrid [10] (60000 / max 1 (60:ℚ) * (6/10)) (((25:ℤ) : ℚ) / 100) a).at' =
        nearestGridPoint [10] a.at') ∧
     ((25:ℤ) = 0 → ∀ a : FunscriptAction,
      snapActionToGrid [10] (60000 / max 1 (60:ℚ) * (6/10)) (((25:ℤ) : ℚ) / 100) a = a) ∧
     (∀ a : FunscriptAction,
      ¬(|((nearestGridPoint [10] a.at' - a.at' : ℤ) : ℚ)| ≤ 60000 / max 1 (60:ℚ) * (6/10)) →
      snapActionToGrid [10] (60000 / max 1 (60:ℚ) * (6/10)) (((25:ℤ) : ℚ) / 100) a = a) ∧
     (applyBeatSnap [⟨0, 0⟩] [10] 60 25).Pairwise (fun x y => x.at' < y.at') ∧
     (∀ t : ℤ, (applyBeatSnap [⟨0, 0⟩] [10] 60 25).filter (fun x => decide (x.at' = t)) =
      ((sortActions (([⟨0, 0⟩] : List FunscriptAction).map
        (snapActionToGrid [10] (60000 / max 1 (60:ℚ) * (6/10)) (((25:ℤ) : ℚ) / 100)))).filter
          (fun x => decide (x.at' = t))).getLast?.toList)) :=
  ⟨by simp, by simp [getBeatGrid], by simp, by norm_num,
   c4_beat_snap [⟨0, 0⟩] [10] 4 [10] 60 25 (by simp) (by simp [getBeatGrid])
     (by simp) (by norm_num) (by norm_num)⟩
